import Mathlib

/-!
Shallow embedding of the WhatsApp transcript analyzer (analyze.py):
the transcript parser (line-continuation state machine, sender registry),
the statistics accumulation pass (total / per-day / per-hour aggregates),
and the report derivation.  Python dicts are modelled as insertion-ordered
association lists; machine integers are Nat/Int; fallible code returns
Except.  Lines are modelled as lists of characters; the digit class of the
patterns and the whitespace class of strip and split are modelled on their
ASCII members (the transcripts the tool targets are ASCII-framed).
Input lines come from iterating a file, so they contain no newline.
-/

namespace WA

/-- ASCII whitespace, as stripped by line.strip and used by str.split. -/
def isWS (c : Char) : Bool :=
  c == ' ' || c == '\t' || c == '\n' || c == '\x0d' || c == '\x0b' || c == '\x0c'

/-- ASCII decimal digit. -/
def isDigitC (c : Char) : Bool := '0' ≤ c && c ≤ '9'

/-- line.strip(): drop whitespace from both ends. -/
def pstrip (l : List Char) : List Char :=
  (((l.dropWhile isWS).reverse).dropWhile isWS).reverse

/-- Number of whitespace-delimited tokens, as len(text.split()). -/
def wcAux : List Char → Bool → Nat
  | [], _ => 0
  | c :: rest, inw =>
    if isWS c then wcAux rest false
    else (if inw then 0 else 1) + wcAux rest true

def wordCount (l : List Char) : Nat := wcAux l false

/-- Maximal run of digits at the front, and the remainder. -/
def spanDigits (l : List Char) : List Char × List Char :=
  (l.takeWhile isDigitC, l.dropWhile isDigitC)

/-- The five digit segments of a matched timestamp group. -/
structure TS where
  mo : List Char
  da : List Char
  yr : List Char
  hr : List Char
  mi : List Char
deriving DecidableEq, Repr

/-- The date-time head pattern of re_datematch, anchored at the start:
digits, slash, digits, slash, digits, comma, space, digits, colon, digits.
Returns the segments and the rest of the line. -/
def matchDateHead (l : List Char) : Option (TS × List Char) :=
  let s1 := spanDigits l
  if s1.1.isEmpty then none else
  match s1.2 with
  | '/' :: r2 =>
    let s2 := spanDigits r2
    if s2.1.isEmpty then none else
    match s2.2 with
    | '/' :: r4 =>
      let s3 := spanDigits r4
      if s3.1.isEmpty then none else
      match s3.2 with
      | ',' :: ' ' :: r6 =>
        let s4 := spanDigits r6
        if s4.1.isEmpty then none else
        match s4.2 with
        | ':' :: r8 =>
          let s5 := spanDigits r8
          if s5.1.isEmpty then none
          else some (⟨s1.1, s2.1, s3.1, s4.1, s5.1⟩, s5.2)
        | _ => none
      | _ => none
    | _ => none
  | _ => none

/-- The full record pattern of re_datenamematch: the date-time head, the
literal " - ", a nonempty colon-free sender name, the literal ": ", and the
message body running to the end of the line.  (The greedy colon-free name
group forces the split at the first colon after " - ", which must be
followed by a space; otherwise the whole match fails.) -/
def matchDateName (l : List Char) : Option (TS × List Char × List Char) :=
  match matchDateHead l with
  | none => none
  | some (ts, rest) =>
    match rest with
    | ' ' :: '-' :: ' ' :: r =>
      let name := r.takeWhile (fun c => !(c == ':'))
      let after := r.dropWhile (fun c => !(c == ':'))
      if name.isEmpty then none else
      match after with
      | ':' :: ' ' :: text => some (ts, name, text)
      | _ => none
    | _ => none

/-- Numeric value of a digit segment. -/
def segVal (l : List Char) : Nat := l.foldl (fun a c => a * 10 + (c.toNat - 48)) 0

def isLeap (y : Nat) : Bool := y % 4 == 0 && (!(y % 100 == 0) || y % 400 == 0)

def daysInMonth (y m : Nat) : Nat :=
  if m = 2 then (if isLeap y then 29 else 28)
  else if m = 4 ∨ m = 6 ∨ m = 9 ∨ m = 11 then 30 else 31

/-- A parsed datetime value (minute resolution, as the %m/%d/%y, %H:%M format). -/
structure DT where
  year : Nat
  month : Nat
  day : Nat
  hour : Nat
  minute : Nat
deriving DecidableEq, Repr

/-- A calendar date, as message.time.date(). -/
structure Date where
  year : Nat
  month : Nat
  day : Nat
deriving DecidableEq, Repr

def DT.dateOf (t : DT) : Date := ⟨t.year, t.month, t.day⟩

/-- datetime.strptime with format %m/%d/%y, %H:%M applied to the matched
segments: each strptime directive consumes at most two digits (the year
exactly two), values must lie in range, the two-digit year maps 0..68 to
2000+y and 69..99 to 1900+y, and the day must exist in the month. -/
def strptimeTS (t : TS) : Option DT :=
  let mo := segVal t.mo
  let da := segVal t.da
  let yv := segVal t.yr
  let hr := segVal t.hr
  let mi := segVal t.mi
  let year := if yv ≤ 68 then 2000 + yv else 1900 + yv
  if t.mo.length ≤ 2 ∧ 1 ≤ mo ∧ mo ≤ 12 ∧
     t.da.length ≤ 2 ∧ 1 ≤ da ∧
     t.yr.length = 2 ∧
     t.hr.length ≤ 2 ∧ hr ≤ 23 ∧
     t.mi.length ≤ 2 ∧ mi ≤ 59 ∧
     da ≤ daysInMonth year mo
  then some ⟨year, mo, da, hr, mi⟩ else none

/-- Days since the civil epoch 1970-01-01 (proleptic Gregorian); the years
in play are 1969..2068, so all intermediate quantities are nonnegative. -/
def dateToDays (d : Date) : Int :=
  let y : Int := if d.month ≤ 2 then (d.year : Int) - 1 else (d.year : Int)
  let m : Int := d.month
  let era : Int := y / 400
  let yoe : Int := y - era * 400
  let mp : Int := (m + 9) % 12
  let doy : Int := (153 * mp + 2) / 5 + (d.day : Int) - 1
  let doe : Int := yoe * 365 + yoe / 4 - yoe / 100 + doy
  era * 146097 + doe - 719468

/-- (a - b).days for two dates (the timedelta is a whole number of days). -/
def dateSub (a b : Date) : Int := dateToDays a - dateToDays b

/-- Minutes since the epoch, for datetime subtraction. -/
def dtToMin (t : DT) : Int :=
  dateToDays t.dateOf * 1440 + (t.hour : Int) * 60 + (t.minute : Int)

/-- datetime subtraction, a timedelta represented in whole minutes. -/
def DT.sub (a b : DT) : Int := dtToMin a - dtToMin b

/-! ## Data model of the parser -/

structure Message where
  time : DT
  sender_id : Nat
  text : List Char
deriving DecidableEq, Repr

structure Chat where
  messages : List Message
  sender_ids : List Nat
deriving DecidableEq, Repr

/-- The global sender registry: senders_by_id as the list of names in id
order (id = position); senders_by_name is its lookup-by-name view. -/
abbrev Reg := List (List Char)

/-- Position of the first occurrence of a name in the registry. -/
def regIdx (name : List Char) : Reg → Option Nat
  | [] => none
  | n :: rest => if n = name then some 0 else (regIdx name rest).map (· + 1)

/-- Lines 67-72: allocate the next sequential id for a novel name, or
return the existing id. -/
def resolveSender (reg : Reg) (name : List Char) : Reg × Nat :=
  match regIdx name reg with
  | some i => (reg, i)
  | none => (reg ++ [name], reg.length)

/-- mutate the text of the last message (chat.messages[-1].text += line). -/
def appendLast : List Message → List Char → List Message
  | [], _ => []
  | [m], l => [{ m with text := m.text ++ l }]
  | m :: m2 :: rest, l => m :: appendLast (m2 :: rest) l

/-- One iteration of the line loop of parse_chat (lines 50-81): strip the
line; a line not matching the date head is a continuation (appended to the
open message, or dropped when there is none); a date-head line that fails
the full record pattern is discarded; otherwise the timestamp is parsed
(a strptime failure is fatal), the sender resolved, the participant list
extended on first appearance, and a new open message appended. -/
def stepLine (reg : Reg) (chat : Chat) (rawLine : List Char) :
    Except Unit (Reg × Chat) :=
  let line := pstrip rawLine
  if (matchDateHead line).isSome = false then
    if chat.messages.isEmpty then .ok (reg, chat)
    else .ok (reg, { chat with messages := appendLast chat.messages line })
  else
    match matchDateName line with
    | none => .ok (reg, chat)
    | some (ts, name, text) =>
      match strptimeTS ts with
      | none => .error ()
      | some dt =>
        let rs := resolveSender reg name
        let sids := if rs.2 ∈ chat.sender_ids then chat.sender_ids
                    else chat.sender_ids ++ [rs.2]
        .ok (rs.1, ⟨chat.messages ++ [⟨dt, rs.2, text⟩], sids⟩)

def parseLinesAux (reg : Reg) (chat : Chat) :
    List (List Char) → Except Unit (Reg × Chat)
  | [] => .ok (reg, chat)
  | l :: rest =>
    match stepLine reg chat l with
    | .error e => .error e
    | .ok rc => parseLinesAux rc.1 rc.2 rest

/-- parse_chat: fold the line loop over the lines of one transcript,
starting from a fresh empty Chat, threading the global registry. -/
def parseChat (reg : Reg) (lines : List (List Char)) : Except Unit (Reg × Chat) :=
  parseLinesAux reg ⟨[], []⟩ lines

/-! ## Data model of the statistics accumulator -/

structure Statistic where
  message_count : Nat := 0
  message_length : Nat := 0
  word_count : Nat := 0
  emoji_count : Nat := 0
deriving DecidableEq, Repr

structure GeneralStatistic extends Statistic where
  emoji_stat : List (List Char × Nat) := []
  reply_times : List Int := []
deriving DecidableEq, Repr

structure StatisticIndex where
  sender_id : Nat
  chat_id : Nat
deriving DecidableEq, Repr

/-- Insertion-ordered association list standing for a Python dict. -/
abbrev AList (κ ν : Type) := List (κ × ν)

def alGet [DecidableEq κ] : AList κ ν → κ → Option ν
  | [], _ => none
  | p :: rest, key => if p.1 = key then some p.2 else alGet rest key

/-- d[k] = f(d[k]) for a key known to be present (no-op when absent). -/
def alModify [DecidableEq κ] : AList κ ν → κ → (ν → ν) → AList κ ν
  | [], _, _ => []
  | p :: rest, key, f =>
    if p.1 = key then (p.1, f p.2) :: rest else p :: alModify rest key f

/-- "if not k in d: d[k] = v0" — lazy container creation, appended in
insertion order. -/
def alEnsure [DecidableEq κ] (l : AList κ ν) (key : κ) (v₀ : ν) : AList κ ν :=
  if (alGet l key).isSome then l else l ++ [(key, v₀)]

/-- The three aggregate mappings built by the accumulation loop. -/
structure AccState where
  statistics : AList StatisticIndex GeneralStatistic
  statistics_by_date : AList StatisticIndex (AList Date Statistic)
  statistics_by_hour : AList StatisticIndex (AList Nat Statistic)
deriving Repr

def accInit : AccState := ⟨[], [], []⟩

inductive AccErr
  | indexError
  | typeError
deriving DecidableEq, Repr

/-- Lines 143-145: the core counter increments applied to one Statistic. -/
def bumpStat (text : List Char) (s : Statistic) : Statistic :=
  { s with message_count := s.message_count + 1,
           message_length := s.message_length + text.length,
           word_count := s.word_count + wordCount text }

/-- Line 152: emoji_count increment applied to one Statistic. -/
def bumpEmojiCount (s : Statistic) : Statistic :=
  { s with emoji_count := s.emoji_count + 1 }

/-- Lines 154-157: the total-resolution emoji frequency table update. -/
def bumpEmojiStat (tbl : AList (List Char) Nat) (e : List Char) :
    AList (List Char) Nat :=
  if (alGet tbl e).isSome then alModify tbl e (· + 1) else tbl ++ [(e, 1)]

/-- Lines 121-133: lazily create the total entry and the day and hour
buckets of the key. -/
def ensureSt (index : StatisticIndex) (date : Date) (hour : Nat)
    (st : AccState) : AccState :=
  { statistics := alEnsure st.statistics index {},
    statistics_by_date :=
      alModify (alEnsure st.statistics_by_date index []) index
        (fun mm => alEnsure mm date {}),
    statistics_by_hour :=
      alModify (alEnsure st.statistics_by_hour index []) index
        (fun mm => alEnsure mm hour {}) }

/-- Line 137: append one reply latency to the total entry of the key. -/
def replySt (index : StatisticIndex) (v : Int) (st : AccState) : AccState :=
  { st with statistics := (alModify st.statistics index
      (fun g => { g with reply_times := g.reply_times ++ [v] })) }

/-- Lines 142-145: the core counter increments applied to the day bucket,
the hour bucket and the total entry of the key. -/
def counters3 (index : StatisticIndex) (date : Date) (hour : Nat)
    (text : List Char) (st : AccState) : AccState :=
  { statistics := alModify st.statistics index
      (fun g => { g with toStatistic := bumpStat text g.toStatistic }),
    statistics_by_date := alModify st.statistics_by_date index
      (fun m => alModify m date (bumpStat text)),
    statistics_by_hour := alModify st.statistics_by_hour index
      (fun m => alModify m hour (bumpStat text)) }

/-- Lines 151-157, one emoji occurrence: increment emoji_count on all
three resolutions and the total-resolution frequency table entry. -/
def emoji3 (index : StatisticIndex) (date : Date) (hour : Nat)
    (e : List Char) (st : AccState) : AccState :=
  { statistics := alModify st.statistics index
      (fun g => { g with toStatistic := bumpEmojiCount g.toStatistic,
                         emoji_stat := bumpEmojiStat g.emoji_stat e }),
    statistics_by_date := alModify st.statistics_by_date index
      (fun m => alModify m date bumpEmojiCount),
    statistics_by_hour := alModify st.statistics_by_hour index
      (fun m => alModify m hour bumpEmojiCount) }

/-- Lines 142-157 for one message: apply the counter increments, then the
emoji loop over the matches found in the text. -/
def trackCounters (em : List Char → List (List Char)) (index : StatisticIndex)
    (date : Date) (hour : Nat) (text : List Char) (st : AccState) : AccState :=
  (em text).foldl (fun st e => emoji3 index date hour e st)
    (counters3 index date hour text st)

/-- Lines 116-157, one iteration of the message loop: lazily create the
total entry and the day and hour buckets of the message's key, append a
reply latency when the sender changed (subtracting from a missing previous
time is a fault), then track the counters and emoji statistics. -/
def accStep (em : List Char → List (List Char)) (cid : Nat) (m : Message)
    (lastS : Nat) (lastT : Option DT) (st : AccState) :
    Except AccErr AccState :=
  let index : StatisticIndex := ⟨m.sender_id, cid⟩
  let date := m.time.dateOf
  let hour := m.time.hour
  let st1 := ensureSt index date hour st
  if m.sender_id ≠ lastS then
    match lastT with
    | none => .error .typeError
    | some t =>
      .ok (trackCounters em index date hour m.text (replySt index (m.time.sub t) st1))
  else
    .ok (trackCounters em index date hour m.text st1)

/-- The message loop of lines 116-157, threading last_sender_id and
last_message_time. -/
def accMsgs (em : List Char → List (List Char)) (cid : Nat) :
    List Message → Nat → Option DT → AccState → Except AccErr AccState
  | [], _, _, st => .ok st
  | m :: rest, lastS, lastT, st =>
    match accStep em cid m lastS lastT st with
    | .error e => .error e
    | .ok st2 => accMsgs em cid rest m.sender_id (some m.time) st2

/-- Lines 112-157 for one chat: last_sender_id is initialized from the
first message of the chat, so a chat with no messages faults at once. -/
def accChat (em : List Char → List (List Char)) (cid : Nat) (chat : Chat)
    (st : AccState) : Except AccErr AccState :=
  match chat.messages with
  | [] => .error .indexError
  | m0 :: _ => accMsgs em cid chat.messages m0.sender_id none st

def accChatsAux (em : List Char → List (List Char)) :
    Nat → List Chat → AccState → Except AccErr AccState
  | _, [], st => .ok st
  | cid, c :: rest, st =>
    match accChat em cid c st with
    | .error e => .error e
    | .ok st2 => accChatsAux em (cid + 1) rest st2

/-- The whole accumulation pass: enumerate(chats) from chat_id 0 on the
three empty mappings. -/
def accChats (em : List Char → List (List Char)) (chats : List Chat) :
    Except AccErr AccState :=
  accChatsAux em 0 chats accInit

/-! ## Data model of the report generator (lines 161-185) -/

inductive RepErr
  | keyError
  | valueError
  | zeroDivisionError
deriving DecidableEq, Repr

/-- Lines 179-180: the emoji table sorted by count descending; the sort is
stable, so ties keep first-insertion order. -/
def emojiSorted (g : GeneralStatistic) : List (List Char × Nat) :=
  g.emoji_stat.mergeSort (fun a b => decide (b.2 ≤ a.2))

/-- Line 181: the top ten entries of the sorted emoji table. -/
def emojiSection (g : GeneralStatistic) : List (List Char × Nat) :=
  (emojiSorted g).take 10

structure SenderReport where
  message_count : Nat
  messages_per_day : Rat
  message_length : Nat
  avg_message_length : Rat
  word_count : Nat
  avg_word_count : Rat
  emoji_count : Nat
  avg_emoji_count : Rat
  avg_word_length : Rat
  top_emojis : List (List Char × Nat × Rat)
deriving DecidableEq, Repr

/-- Lines 168-185 for one sender: unpack the first and last day-bucket key
in insertion order (fewer than two keys is a fault), take their difference
in days, then derive the metrics in print order; each division whose
divisor is zero is a fault, and the per-entry emoji percentage divides by
the total emoji count only when the sorted table is nonempty. -/
def reportSender (stat : GeneralStatistic) (stat_by_date : AList Date Statistic) :
    Except RepErr SenderReport :=
  match stat_by_date.map Prod.fst with
  | [] => .error .valueError
  | [_] => .error .valueError
  | d0 :: d1 :: ds =>
    let last_date := (d1 :: ds).getLast (List.cons_ne_nil d1 ds)
    let total_days : Int := dateSub last_date d0
    if total_days = 0 then .error .zeroDivisionError
    else if stat.message_count = 0 then .error .zeroDivisionError
    else if stat.word_count = 0 then .error .zeroDivisionError
    else
      let emojis := emojiSection stat
      if ¬ emojis.isEmpty ∧ stat.emoji_count = 0 then .error .zeroDivisionError
      else .ok
        { message_count := stat.message_count,
          messages_per_day := (stat.message_count : Rat) / (total_days : Rat),
          message_length := stat.message_length,
          avg_message_length := (stat.message_length : Rat) / (stat.message_count : Rat),
          word_count := stat.word_count,
          avg_word_count := (stat.word_count : Rat) / (stat.message_count : Rat),
          emoji_count := stat.emoji_count,
          avg_emoji_count := (stat.emoji_count : Rat) / (stat.message_count : Rat),
          avg_word_length := (stat.message_length : Rat) / (stat.word_count : Rat),
          top_emojis := emojis.map
            (fun p => (p.1, p.2, 100 * (p.2 : Rat) / (stat.emoji_count : Rat))) }

/-- Lines 163-185: one block per participant sender id, in first-appearance
order; a missing aggregate entry is a lookup fault. -/
def reportSendersAux (st : AccState) (cid : Nat) :
    List Nat → Except RepErr (List SenderReport)
  | [] => .ok []
  | s :: rest =>
    match alGet st.statistics ⟨s, cid⟩, alGet st.statistics_by_date ⟨s, cid⟩ with
    | some stat, some db =>
      match reportSender stat db with
      | .error e => .error e
      | .ok r =>
        match reportSendersAux st cid rest with
        | .error e => .error e
        | .ok rs => .ok (r :: rs)
    | _, _ => .error .keyError

def reportAllAux (st : AccState) : Nat → List Chat → Except RepErr (List (List SenderReport))
  | _, [] => .ok []
  | cid, c :: rest =>
    match reportSendersAux st cid c.sender_ids with
    | .error e => .error e
    | .ok rs =>
      match reportAllAux st (cid + 1) rest with
      | .error e => .error e
      | .ok rss => .ok (rs :: rss)

/-- Lines 161-185: the whole console report. -/
def reportAll (st : AccState) (chats : List Chat) :
    Except RepErr (List (List SenderReport)) :=
  reportAllAux st 0 chats

inductive RunErr
  | parseError
  | accError (e : AccErr)
  | reportError (e : RepErr)
deriving DecidableEq, Repr

def parseAll (reg : Reg) : List (List (List Char)) → Except Unit (Reg × List Chat)
  | [] => .ok (reg, [])
  | f :: rest =>
    match parseChat reg f with
    | .error e => .error e
    | .ok rc =>
      match parseAll rc.1 rest with
      | .error e => .error e
      | .ok rcs => .ok (rcs.1, rc.2 :: rcs.2)

/-- The module top level up to the console report: parse every transcript
with the shared registry, accumulate, report. -/
def runAnalysis (em : List Char → List (List Char))
    (files : List (List (List Char))) : Except RunErr (List (List SenderReport)) :=
  match parseAll [] files with
  | .error _ => .error .parseError
  | .ok rc =>
    match accChats em rc.2 with
    | .error e => .error (.accError e)
    | .ok st =>
      match reportAll st rc.2 with
      | .error e => .error (.reportError e)
      | .ok rss => .ok rss

/-! ## Derived views used to state the properties -/

/-- The reply-latency list recorded for a key (empty when the key has no
total-resolution entry). -/
def replyGet (st : AccState) (k : StatisticIndex) : List Int :=
  match alGet st.statistics k with
  | some g => g.reply_times
  | none => []

/-- The latencies a sender should receive: over the adjacent message pairs
of the chat, exactly those whose later message switches sender and belongs
to this sender, each contributing the timestamp difference, in order. -/
def switchLatencies (s : Nat) (msgs : List Message) : List Int :=
  (msgs.zip msgs.tail).filterMap (fun pq =>
    if pq.2.sender_id ≠ pq.1.sender_id ∧ pq.2.sender_id = s
    then some (DT.sub pq.2.time pq.1.time) else none)

/-- The number of switch points of a sender in a chat. -/
def switchCount (s : Nat) (msgs : List Message) : Nat :=
  (msgs.zip msgs.tail).countP (fun pq =>
    decide (pq.2.sender_id ≠ pq.1.sender_id ∧ pq.2.sender_id = s))

/-- The latencies of a sender along the message loop, threading the
previous sender and timestamp; recursion form of switchLatencies. -/
def chainLat (s : Nat) : Nat → DT → List Message → List Int
  | _, _, [] => []
  | pS, pT, m :: rest =>
    (if m.sender_id ≠ pS ∧ m.sender_id = s then [DT.sub m.time pT] else []) ++
      chainLat s m.sender_id m.time rest

/-- Concatenation of the stripped continuation lines. -/
def joinStrips (conts : List (List Char)) : List Char :=
  (conts.map pstrip).flatten

/-- The sequence of sender ids handed out by a run of registry
resolutions, together with the final registry. -/
def runResolve : List (List Char) → Reg → List Nat × Reg
  | [], reg => ([], reg)
  | n :: rest, reg =>
    let ri := resolveSender reg n
    let rr := runResolve rest ri.1
    (ri.2 :: rr.1, rr.2)

/-- The registry after a run of resolutions: names in first-seen order. -/
def firstSeen (reg : Reg) : List (List Char) → Reg
  | [] => reg
  | n :: rest => firstSeen (resolveSender reg n).1 rest

/-- The id handed out for the i-th header line of a run. -/
def assignedId (names : List (List Char)) (i : Nat) : Nat :=
  (runResolve names []).1.getD i 0

/-- Sum of a field over the values of a bucket mapping. -/
def sumVals (f : ν → Nat) (l : AList κ ν) : Nat :=
  (l.map (fun p => f p.2)).sum

/-- The three-resolution sum equalities of one key. -/
def statSums (g : GeneralStatistic) (db : AList Date Statistic)
    (hb : AList Nat Statistic) : Prop :=
  g.message_count = sumVals Statistic.message_count db ∧
  g.message_count = sumVals Statistic.message_count hb ∧
  g.message_length = sumVals Statistic.message_length db ∧
  g.message_length = sumVals Statistic.message_length hb ∧
  g.word_count = sumVals Statistic.word_count db ∧
  g.word_count = sumVals Statistic.word_count hb ∧
  g.emoji_count = sumVals Statistic.emoji_count db ∧
  g.emoji_count = sumVals Statistic.emoji_count hb

/-- The emoji frequency table of a key carries the emoji count: its values
sum to emoji_count and every entry is positive. -/
def emojiTbl (g : GeneralStatistic) : Prop :=
  sumVals id g.emoji_stat = g.emoji_count ∧ ∀ p ∈ g.emoji_stat, 1 ≤ p.2

/-- The accumulation invariant at one key: either all three mappings hold
the key, with the sums agreeing, or none does. -/
def InvAt (st : AccState) (k : StatisticIndex) : Prop :=
  (∃ g db hb, alGet st.statistics k = some g ∧
      alGet st.statistics_by_date k = some db ∧
      alGet st.statistics_by_hour k = some hb ∧ statSums g db hb ∧ emojiTbl g)
  ∨ (alGet st.statistics k = none ∧ alGet st.statistics_by_date k = none ∧
      alGet st.statistics_by_hour k = none)

def Inv (st : AccState) : Prop := ∀ k, InvAt st k

/-- All three mappings hold the key. -/
def keyPresent (st : AccState) (k : StatisticIndex) : Prop :=
  (alGet st.statistics k).isSome ∧ (alGet st.statistics_by_date k).isSome ∧
  (alGet st.statistics_by_hour k).isSome

/-- All three mappings hold the key, the day and hour buckets exist, and
the invariant content holds at the key: the working state of the message
loop between container creation and the counter updates. -/
def Ready (st : AccState) (i : StatisticIndex) (d : Date) (hr : Nat) : Prop :=
  ∃ g db hb dv hv,
    alGet st.statistics i = some g ∧
    alGet st.statistics_by_date i = some db ∧
    alGet st.statistics_by_hour i = some hb ∧
    alGet db d = some dv ∧ alGet hb hr = some hv ∧
    statSums g db hb ∧ emojiTbl g

/-- A concrete stand-in for the injected emoji matcher, used on concrete
runs: every star character is an emoji grapheme. -/
def emStar : List Char → List (List Char) :=
  fun t => (t.filter (fun c => c == '*')).map (fun c => [c])

/-- A concrete two-sender chat used on concrete runs. -/
def chatW : Chat :=
  ⟨[⟨⟨2023, 1, 2, 9, 0⟩, 0, "Hello *".toList⟩,
    ⟨⟨2023, 1, 2, 9, 5⟩, 1, "Hi".toList⟩], [0, 1]⟩

/-! ## Lemmas about the association-list dictionary model -/

theorem alGet_append {κ ν : Type} [DecidableEq κ] (l₁ l₂ : AList κ ν) (k : κ) :
    alGet (l₁ ++ l₂) k =
      (match alGet l₁ k with
       | some v => some v
       | none => alGet l₂ k) := by
  induction l₁ with
  | nil => simp [alGet]
  | cons p rest ih =>
    by_cases h : p.1 = k <;> simp [alGet, h, ih]

theorem alGet_alEnsure_self {κ ν : Type} [DecidableEq κ] (l : AList κ ν)
    (k : κ) (v₀ : ν) :
    alGet (alEnsure l k v₀) k = some ((alGet l k).getD v₀) := by
  unfold alEnsure
  split
  · next h =>
    obtain ⟨v, hv⟩ := Option.isSome_iff_exists.mp h
    simp [hv]
  · next h =>
    have hn : alGet l k = none := Option.not_isSome_iff_eq_none.mp h
    rw [alGet_append, hn]
    simp [alGet]

theorem alGet_alEnsure_ne {κ ν : Type} [DecidableEq κ] {l : AList κ ν}
    {k k' : κ} (v₀ : ν) (h : k' ≠ k) :
    alGet (alEnsure l k v₀) k' = alGet l k' := by
  unfold alEnsure
  split
  · rfl
  · rw [alGet_append]
    cases hg : alGet l k' with
    | some v => simp
    | none => simp [alGet, Ne.symm h]

theorem alGet_alModify_self {κ ν : Type} [DecidableEq κ] (l : AList κ ν)
    (k : κ) (f : ν → ν) :
    alGet (alModify l k f) k = (alGet l k).map f := by
  induction l with
  | nil => simp [alGet, alModify]
  | cons p rest ih =>
    by_cases h : p.1 = k <;> simp [alGet, alModify, h, ih]

theorem alGet_alModify_ne {κ ν : Type} [DecidableEq κ] {l : AList κ ν}
    {k k' : κ} (f : ν → ν) (h : k' ≠ k) :
    alGet (alModify l k f) k' = alGet l k' := by
  induction l with
  | nil => simp [alModify]
  | cons p rest ih =>
    by_cases hp : p.1 = k
    · simp [alModify, hp, alGet, Ne.symm h]
    · simp [alModify, hp, alGet, h, ih]

/-! ## C1 and C2: the two crash sites -/

/-- C1: the statistics accumulation pass is claimed to run without fault on
every chat, including one with zero messages; in fact last_sender_id is
initialized from chat.messages[0], so a zero-message chat faults at once
(IndexError) and contributes an error instead of empty aggregates. -/
theorem spec_c1_empty_chat_faults (em : List Char → List (List Char))
    (sids : List Nat) :
    accChats em [⟨[], sids⟩] = .error .indexError ∧
    ∀ (cid : Nat) (st : AccState), accChat em cid ⟨[], sids⟩ st = .error .indexError :=
  ⟨rfl, fun _ _ => rfl⟩

/-- C2: the derived metrics of the report are claimed to be guarded against
zero divisors; in fact there is no guard: a sender whose messages all fall
on one calendar day makes the first/last day-bucket unpacking fault
(ValueError, before any quotient is formed), and an aggregate with zero
word count faults in the average-word-length quotient (ZeroDivisionError)
instead of producing a sentinel. -/
theorem spec_c2_report_unguarded :
    runAnalysis emStar [["1/2/23, 09:00 - Alice: Hello".toList]] =
      .error (.reportError .valueError) ∧
    reportSender
        { message_count := 2, message_length := 0, word_count := 0,
          emoji_count := 0 }
        [(⟨2023, 1, 2⟩, {}), (⟨2023, 1, 3⟩, {})] = .error .zeroDivisionError := by
  constructor <;> rfl

/-! ## C7: malformed header-looking lines are discarded -/

theorem stepLine_discard (reg : Reg) (chat : Chat) (bad : List Char)
    (h1 : (matchDateHead (pstrip bad)).isSome = true)
    (h2 : matchDateName (pstrip bad) = none) :
    stepLine reg chat bad = .ok (reg, chat) := by
  simp [stepLine, h1, h2]

theorem parseLinesAux_skip (bad : List Char)
    (h1 : (matchDateHead (pstrip bad)).isSome = true)
    (h2 : matchDateName (pstrip bad) = none) :
    ∀ (pre : List (List Char)) (reg : Reg) (chat : Chat)
      (post : List (List Char)),
      parseLinesAux reg chat (pre ++ bad :: post) =
        parseLinesAux reg chat (pre ++ post)
  | [], reg, chat, post => by
    simp [parseLinesAux, stepLine_discard reg chat bad h1 h2]
  | l :: pre, reg, chat, post => by
    simp only [List.cons_append, parseLinesAux]
    cases stepLine reg chat l with
    | error e => rfl
    | ok rc => exact parseLinesAux_skip bad h1 h2 pre rc.1 rc.2 post

/-- C7: a line whose start matches the date-time head but which fails the
strict full-record pattern is discarded entirely, without raising: parsing
is the same as parsing the input with that line removed. -/
theorem spec_c7_malformed_header_discarded (reg : Reg)
    (pre post : List (List Char)) (bad : List Char)
    (h1 : (matchDateHead (pstrip bad)).isSome = true)
    (h2 : matchDateName (pstrip bad) = none) :
    parseChat reg (pre ++ bad :: post) = parseChat reg (pre ++ post) :=
  parseLinesAux_skip bad h1 h2 pre reg ⟨[], []⟩ post

/-- Witness for C7 at the system-notification scenario of the spec. -/
theorem spec_c7_witness :
    parseChat [] ([] ++ ("1/2/23, 09:00 - System joined".toList) ::
        ["1/2/23, 09:05 - Bob: Hi".toList]) =
      parseChat [] ([] ++ ["1/2/23, 09:05 - Bob: Hi".toList]) :=
  spec_c7_malformed_header_discarded [] [] ["1/2/23, 09:05 - Bob: Hi".toList]
    ("1/2/23, 09:00 - System joined".toList) (by decide) (by decide)

theorem sumVals_append {κ ν : Type} (f : ν → Nat) (l₁ l₂ : AList κ ν) :
    sumVals f (l₁ ++ l₂) = sumVals f l₁ + sumVals f l₂ := by
  simp [sumVals]

theorem sumVals_alEnsure {κ ν : Type} [DecidableEq κ] (f : ν → Nat)
    (v₀ : ν) (l : AList κ ν) (k : κ) (h : f v₀ = 0) :
    sumVals f (alEnsure l k v₀) = sumVals f l := by
  unfold alEnsure
  split
  · rfl
  · rw [sumVals_append]
    simp [sumVals, h]

theorem sumVals_alModify {κ ν : Type} [DecidableEq κ] {l : AList κ ν}
    {k : κ} {v : ν} (f : ν → Nat) (u : ν → ν) (hget : alGet l k = some v) :
    sumVals f (alModify l k u) + f v = sumVals f l + f (u v) := by
  induction l with
  | nil => simp [alGet] at hget
  | cons p rest ih =>
    by_cases h : p.1 = k
    · simp only [alGet, h, if_pos, Option.some.injEq] at hget
      subst hget
      simp [alModify, h, sumVals]
      omega
    · simp only [alGet, h, if_neg, if_false] at hget
      have := ih hget
      simp [alModify, h, sumVals] at this ⊢
      omega

/-! ## C6: round-trip of multi-line messages -/

theorem appendLast_cons (a : Message) (xs : List Message) (l : List Char)
    (h : xs ≠ []) : appendLast (a :: xs) l = a :: appendLast xs l := by
  cases xs with
  | nil => exact absurd rfl h
  | cons b ys => rfl

theorem appendLast_concat (ms : List Message) (m : Message) (l : List Char) :
    appendLast (ms ++ [m]) l = ms ++ [{ m with text := m.text ++ l }] := by
  induction ms with
  | nil => rfl
  | cons a ms ih =>
    rw [List.cons_append, appendLast_cons a (ms ++ [m]) l (by simp), ih,
      List.cons_append]

theorem matchDateName_head {l : List Char} {x : TS × List Char × List Char}
    (h : matchDateName l = some x) : (matchDateHead l).isSome = true := by
  unfold matchDateName at h
  cases hh : matchDateHead l with
  | none => rw [hh] at h; exact absurd h (by simp)
  | some y => simp [hh]

theorem parseLinesAux_conts :
    ∀ (conts : List (List Char)),
      (∀ c ∈ conts, (matchDateHead (pstrip c)).isSome = false) →
      ∀ (reg : Reg) (ms : List Message) (m : Message) (sids : List Nat),
      parseLinesAux reg ⟨ms ++ [m], sids⟩ conts =
        .ok (reg, ⟨ms ++ [{ m with text := m.text ++ joinStrips conts }], sids⟩)
  | [], h, reg, ms, m, sids => by
    simp [parseLinesAux, joinStrips]
  | c :: cs, h, reg, ms, m, sids => by
    have hc : (matchDateHead (pstrip c)).isSome = false := h c (by simp)
    have hrest : ∀ x ∈ cs, (matchDateHead (pstrip x)).isSome = false :=
      fun x hx => h x (by simp [hx])
    have hstep : stepLine reg ⟨ms ++ [m], sids⟩ c =
        .ok (reg, ⟨ms ++ [{ m with text := m.text ++ pstrip c }], sids⟩) := by
      simp [stepLine, hc, appendLast_concat]
    simp only [parseLinesAux, hstep]
    rw [parseLinesAux_conts cs hrest reg ms { m with text := m.text ++ pstrip c } sids]
    simp [joinStrips]

/-- C6: parsing a valid header line followed by continuation lines yields
exactly one message whose text is the header body concatenated with each
stripped continuation line in order, with no separator. -/
theorem spec_c6_roundtrip (reg : Reg) (header : List Char)
    (conts : List (List Char)) (ts : TS) (name body : List Char) (dt : DT)
    (hm : matchDateName (pstrip header) = some (ts, name, body))
    (hdt : strptimeTS ts = some dt)
    (hc : ∀ c ∈ conts, (matchDateHead (pstrip c)).isSome = false) :
    parseChat reg (header :: conts) =
      .ok ((resolveSender reg name).1,
        ⟨[⟨dt, (resolveSender reg name).2, body ++ joinStrips conts⟩],
         [(resolveSender reg name).2]⟩) := by
  have hh := matchDateName_head hm
  have hstep : stepLine reg ⟨[], []⟩ header =
      .ok ((resolveSender reg name).1,
        ⟨[⟨dt, (resolveSender reg name).2, body⟩],
         [(resolveSender reg name).2]⟩) := by
    simp [stepLine, hh, hm, hdt]
  unfold parseChat
  simp only [parseLinesAux, hstep]
  have := parseLinesAux_conts conts hc (resolveSender reg name).1 []
    ⟨dt, (resolveSender reg name).2, body⟩ [(resolveSender reg name).2]
  simpa using this

/-- Witness for C6 at the two-line scenario of the spec. -/
theorem spec_c6_witness :
    parseChat [] (("1/2/23, 09:00 - Alice: Hello".toList) :: ["continued".toList]) =
      .ok ((resolveSender [] ("Alice".toList)).1,
        ⟨[⟨⟨2023, 1, 2, 9, 0⟩, (resolveSender [] ("Alice".toList)).2,
            ("Hello".toList) ++ joinStrips ["continued".toList]⟩],
         [(resolveSender [] ("Alice".toList)).2]⟩) :=
  spec_c6_roundtrip [] ("1/2/23, 09:00 - Alice: Hello".toList)
    ["continued".toList]
    ⟨"1".toList, "2".toList, "23".toList, "09".toList, "00".toList⟩
    ("Alice".toList) ("Hello".toList) ⟨2023, 1, 2, 9, 0⟩
    (by decide) (by decide) (by decide)

/-! ## C5: the sender registry -/

theorem regIdx_append_left {name : List Char} {reg : Reg} {i : Nat}
    (h : regIdx name reg = some i) (ext : Reg) :
    regIdx name (reg ++ ext) = some i := by
  induction reg generalizing i with
  | nil => simp [regIdx] at h
  | cons n rest ih =>
    by_cases hn : n = name
    · simp [regIdx, hn] at h ⊢
      exact h
    · simp only [regIdx, hn, if_false, if_neg] at h
      cases hr : regIdx name rest with
      | none => rw [hr] at h; simp at h
      | some j =>
        rw [hr] at h
        simp at h
        simp [regIdx, hn, List.cons_append, ih hr]
        omega

theorem regIdx_append_self {name : List Char} {reg : Reg}
    (h : regIdx name reg = none) :
    regIdx name (reg ++ [name]) = some reg.length := by
  induction reg with
  | nil => simp [regIdx]
  | cons n rest ih =>
    by_cases hn : n = name
    · simp [regIdx, hn] at h
    · simp only [regIdx, hn, if_false, if_neg] at h
      cases hr : regIdx name rest with
      | some j => rw [hr] at h; simp at h
      | none => simp [regIdx, hn, ih hr]

theorem regIdx_get {a : List Char} {reg : Reg} {i : Nat}
    (h : regIdx a reg = some i) :
    ∃ hlt : i < reg.length, reg.get ⟨i, hlt⟩ = a := by
  induction reg generalizing i with
  | nil => simp [regIdx] at h
  | cons n rest ih =>
    by_cases hn : n = a
    · simp [regIdx, hn] at h
      subst h
      exact ⟨by simp, by simpa using hn⟩
    · simp only [regIdx, hn, if_false, if_neg] at h
      cases hr : regIdx a rest with
      | none => rw [hr] at h; simp at h
      | some j =>
        rw [hr] at h
        simp at h
        obtain ⟨hlt, hget⟩ := ih hr
        subst h
        exact ⟨by simpa using Nat.succ_lt_succ hlt, by simpa using hget⟩

theorem regIdx_inj {a b : List Char} {reg : Reg} {i : Nat}
    (ha : regIdx a reg = some i) (hb : regIdx b reg = some i) : a = b := by
  obtain ⟨hla, hga⟩ := regIdx_get ha
  obtain ⟨hlb, hgb⟩ := regIdx_get hb
  rw [← hga, ← hgb]

theorem regIdx_none_not_mem {name : List Char} {reg : Reg}
    (h : regIdx name reg = none) : name ∉ reg := by
  induction reg with
  | nil => simp
  | cons n rest ih =>
    by_cases hn : n = name
    · simp [regIdx, hn] at h
    · simp only [regIdx, hn, if_false, if_neg] at h
      cases hr : regIdx name rest with
      | some j => rw [hr] at h; simp at h
      | none => simp [hn, Ne.symm hn, ih hr]

theorem resolveSender_regIdx (reg : Reg) (name : List Char) :
    regIdx name (resolveSender reg name).1 = some (resolveSender reg name).2 := by
  unfold resolveSender
  cases h : regIdx name reg with
  | some i => simp [h]
  | none => simp [h, regIdx_append_self h]

theorem firstSeen_ext (names : List (List Char)) :
    ∀ reg : Reg, ∃ ext, firstSeen reg names = reg ++ ext := by
  induction names with
  | nil => exact fun reg => ⟨[], by simp [firstSeen]⟩
  | cons n rest ih =>
    intro reg
    unfold firstSeen resolveSender
    cases h : regIdx n reg with
    | some i => simpa using ih reg
    | none =>
      obtain ⟨ext, hext⟩ := ih (reg ++ [n])
      exact ⟨[n] ++ ext, by simpa using hext⟩

theorem firstSeen_nodup (names : List (List Char)) :
    ∀ reg : Reg, reg.Nodup → (firstSeen reg names).Nodup := by
  induction names with
  | nil => exact fun reg h => h
  | cons n rest ih =>
    intro reg hreg
    unfold firstSeen resolveSender
    cases h : regIdx n reg with
    | some i => simpa using ih reg hreg
    | none =>
      apply ih
      simp [List.nodup_append, hreg, regIdx_none_not_mem h]

theorem runResolve_idx (names : List (List Char)) :
    ∀ (reg : Reg) (i : Nat) (hi : i < names.length),
      regIdx (names.get ⟨i, hi⟩) (firstSeen reg names) =
        some ((runResolve names reg).1.getD i 0) := by
  induction names with
  | nil => intro reg i hi; simp at hi
  | cons n rest ih =>
    intro reg i hi
    cases i with
    | zero =>
      show regIdx n (firstSeen (resolveSender reg n).1 rest) =
        some (((resolveSender reg n).2 ::
          (runResolve rest (resolveSender reg n).1).1).getD 0 0)
      obtain ⟨ext, hext⟩ := firstSeen_ext rest (resolveSender reg n).1
      rw [hext]
      simpa using regIdx_append_left (resolveSender_regIdx reg n) ext
    | succ j =>
      have hj : j < rest.length := Nat.lt_of_succ_lt_succ hi
      have hres := ih (resolveSender reg n).1 j hj
      show regIdx ((n :: rest).get ⟨j + 1, hi⟩)
        (firstSeen (resolveSender reg n).1 rest) =
        some (((resolveSender reg n).2 ::
          (runResolve rest (resolveSender reg n).1).1).getD (j + 1) 0)
      simpa using hres

/-- C5: sender resolution is a pure function of name: the id handed out at
any header line is the index of that name in the first-seen registry, so
identical names get identical ids, distinct names get distinct ids, and
ids enumerate the registry in first-seen order, which is duplicate-free. -/
theorem spec_c5_registry (names : List (List Char)) (i j : Nat)
    (hi : i < names.length) (hj : j < names.length) :
    (regIdx (names.get ⟨i, hi⟩) (firstSeen [] names) = some (assignedId names i)) ∧
    (names.get ⟨i, hi⟩ = names.get ⟨j, hj⟩ ↔ assignedId names i = assignedId names j) ∧
    (firstSeen [] names).Nodup := by
  have hri : regIdx (names.get ⟨i, hi⟩) (firstSeen [] names) =
      some (assignedId names i) := runResolve_idx names [] i hi
  have hrj : regIdx (names.get ⟨j, hj⟩) (firstSeen [] names) =
      some (assignedId names j) := runResolve_idx names [] j hj
  refine ⟨hri, ⟨?_, ?_⟩, firstSeen_nodup names [] List.nodup_nil⟩
  · intro h
    rw [h] at hri
    exact Option.some.inj (hri.symm.trans hrj)
  · intro h
    rw [h] at hri
    exact regIdx_inj hri hrj

/-! ## C9 and C10: participant list invariants of the parser -/

theorem appendLast_map_sender (ms : List Message) (l : List Char) :
    (appendLast ms l).map Message.sender_id = ms.map Message.sender_id := by
  induction ms with
  | nil => rfl
  | cons m rest ih =>
    cases rest with
    | nil => rfl
    | cons m2 r2 => simp only [appendLast, List.map_cons, ih]

theorem stepLine_inv {reg : Reg} {chat : Chat} {l : List Char}
    {reg2 : Reg} {chat2 : Chat}
    (hstep : stepLine reg chat l = .ok (reg2, chat2))
    (hinv : ∀ m ∈ chat.messages, m.sender_id ∈ chat.sender_ids) :
    ∀ m ∈ chat2.messages, m.sender_id ∈ chat2.sender_ids := by
  simp only [stepLine] at hstep
  split at hstep
  · split at hstep
    · simp only [Except.ok.injEq, Prod.mk.injEq] at hstep
      obtain ⟨rfl, rfl⟩ := hstep
      exact hinv
    · simp only [Except.ok.injEq, Prod.mk.injEq] at hstep
      obtain ⟨rfl, rfl⟩ := hstep
      intro m hm
      have hmem : m.sender_id ∈
          (appendLast chat.messages (pstrip l)).map Message.sender_id :=
        List.mem_map_of_mem Message.sender_id hm
      rw [appendLast_map_sender] at hmem
      obtain ⟨m0, hm0, he⟩ := List.mem_map.mp hmem
      exact he ▸ hinv m0 hm0
  · split at hstep
    · simp only [Except.ok.injEq, Prod.mk.injEq] at hstep
      obtain ⟨rfl, rfl⟩ := hstep
      exact hinv
    · split at hstep
      · exact absurd hstep (by simp)
      · simp only [Except.ok.injEq, Prod.mk.injEq] at hstep
        obtain ⟨rfl, rfl⟩ := hstep
        intro m hm
        rcases List.mem_append.mp hm with hold | hnew
        · have hs := hinv m hold
          split
          · exact hs
          · exact List.mem_append_left _ hs
        · simp only [List.mem_singleton] at hnew
          subst hnew
          split
          · next hq => exact hq
          · exact List.mem_append_right _ (by simp)

theorem stepLine_conv {reg : Reg} {chat : Chat} {l : List Char}
    {reg2 : Reg} {chat2 : Chat}
    (hstep : stepLine reg chat l = .ok (reg2, chat2))
    (hconv : ∀ s ∈ chat.sender_ids, ∃ m ∈ chat.messages, m.sender_id = s) :
    ∀ s ∈ chat2.sender_ids, ∃ m ∈ chat2.messages, m.sender_id = s := by
  simp only [stepLine] at hstep
  split at hstep
  · split at hstep
    · simp only [Except.ok.injEq, Prod.mk.injEq] at hstep
      obtain ⟨rfl, rfl⟩ := hstep
      exact hconv
    · simp only [Except.ok.injEq, Prod.mk.injEq] at hstep
      obtain ⟨rfl, rfl⟩ := hstep
      intro s hs
      obtain ⟨m0, hm0, he⟩ := hconv s hs
      have hmem : m0.sender_id ∈ chat.messages.map Message.sender_id :=
        List.mem_map_of_mem Message.sender_id hm0
      rw [← appendLast_map_sender chat.messages (pstrip l)] at hmem
      obtain ⟨m1, hm1, he1⟩ := List.mem_map.mp hmem
      exact ⟨m1, hm1, he1.trans he⟩
  · split at hstep
    · simp only [Except.ok.injEq, Prod.mk.injEq] at hstep
      obtain ⟨rfl, rfl⟩ := hstep
      exact hconv
    · split at hstep
      · exact absurd hstep (by simp)
      · simp only [Except.ok.injEq, Prod.mk.injEq] at hstep
        obtain ⟨rfl, rfl⟩ := hstep
        intro s hs
        revert hs
        split
        · next hq =>
          intro hs
          obtain ⟨m0, hm0, he⟩ := hconv s hs
          exact ⟨m0, List.mem_append_left _ hm0, he⟩
        · intro hs
          rcases List.mem_append.mp hs with hold | hnewid
          · obtain ⟨m0, hm0, he⟩ := hconv s hold
            exact ⟨m0, List.mem_append_left _ hm0, he⟩
          · refine ⟨_, List.mem_append_right _ (List.mem_singleton_self _), ?_⟩
            simp at hnewid
            simp [hnewid]

theorem parseLinesAux_inv :
    ∀ (lines : List (List Char)) (reg : Reg) (chat : Chat)
      (reg2 : Reg) (chat2 : Chat),
      parseLinesAux reg chat lines = .ok (reg2, chat2) →
      (∀ m ∈ chat.messages, m.sender_id ∈ chat.sender_ids) →
      ∀ m ∈ chat2.messages, m.sender_id ∈ chat2.sender_ids
  | [], reg, chat, reg2, chat2, h, hinv => by
    simp only [parseLinesAux, Except.ok.injEq, Prod.mk.injEq] at h
    obtain ⟨rfl, rfl⟩ := h
    exact hinv
  | l :: rest, reg, chat, reg2, chat2, h, hinv => by
    simp only [parseLinesAux] at h
    cases hs : stepLine reg chat l with
    | error e => rw [hs] at h; exact absurd h (by simp)
    | ok rc =>
      rw [hs] at h
      exact parseLinesAux_inv rest rc.1 rc.2 reg2 chat2 h
        (stepLine_inv (by rw [hs]) hinv)

theorem parseLinesAux_conv :
    ∀ (lines : List (List Char)) (reg : Reg) (chat : Chat)
      (reg2 : Reg) (chat2 : Chat),
      parseLinesAux reg chat lines = .ok (reg2, chat2) →
      (∀ s ∈ chat.sender_ids, ∃ m ∈ chat.messages, m.sender_id = s) →
      ∀ s ∈ chat2.sender_ids, ∃ m ∈ chat2.messages, m.sender_id = s
  | [], reg, chat, reg2, chat2, h, hconv => by
    simp only [parseLinesAux, Except.ok.injEq, Prod.mk.injEq] at h
    obtain ⟨rfl, rfl⟩ := h
    exact hconv
  | l :: rest, reg, chat, reg2, chat2, h, hconv => by
    simp only [parseLinesAux] at h
    cases hs : stepLine reg chat l with
    | error e => rw [hs] at h; exact absurd h (by simp)
    | ok rc =>
      rw [hs] at h
      exact parseLinesAux_conv rest rc.1 rc.2 reg2 chat2 h
        (stepLine_conv (by rw [hs]) hconv)

/-- C9: every message of a parsed chat references a sender id recorded in
that chat's participant list. -/
theorem spec_c9_messages_reference_participants (reg reg2 : Reg)
    (lines : List (List Char)) (chat : Chat)
    (hp : parseChat reg lines = .ok (reg2, chat)) :
    ∀ m ∈ chat.messages, m.sender_id ∈ chat.sender_ids :=
  parseLinesAux_inv lines reg ⟨[], []⟩ reg2 chat hp (by simp)

/-- Witness for C9 on a concrete two-sender transcript. -/
theorem spec_c9_witness :
    (⟨⟨2023, 1, 2, 9, 5⟩, 1, "Hi".toList⟩ : Message).sender_id ∈ [0, 1] :=
  spec_c9_messages_reference_participants ["Alice".toList, "Bob".toList]
    ["Alice".toList, "Bob".toList]
    ["1/2/23, 09:00 - Alice: Hello".toList, "1/2/23, 09:05 - Bob: Hi".toList]
    ⟨[⟨⟨2023, 1, 2, 9, 0⟩, 0, "Hello".toList⟩,
      ⟨⟨2023, 1, 2, 9, 5⟩, 1, "Hi".toList⟩], [0, 1]⟩
    rfl ⟨⟨2023, 1, 2, 9, 5⟩, 1, "Hi".toList⟩ (by decide)

/-- Witness for C5 on a run with a repeated name. -/
theorem spec_c5_witness :
    (regIdx (["ab".toList, "cd".toList, "ab".toList].get ⟨0, by decide⟩)
        (firstSeen [] ["ab".toList, "cd".toList, "ab".toList]) =
      some (assignedId ["ab".toList, "cd".toList, "ab".toList] 0)) ∧
    (["ab".toList, "cd".toList, "ab".toList].get ⟨0, by decide⟩ =
        ["ab".toList, "cd".toList, "ab".toList].get ⟨2, by decide⟩ ↔
      assignedId ["ab".toList, "cd".toList, "ab".toList] 0 =
        assignedId ["ab".toList, "cd".toList, "ab".toList] 2) ∧
    (firstSeen [] ["ab".toList, "cd".toList, "ab".toList]).Nodup :=
  spec_c5_registry ["ab".toList, "cd".toList, "ab".toList] 0 2
    (by decide) (by decide)

/-! ## C3: reply latencies -/

theorem counters3_replyGet (i : StatisticIndex) (d : Date) (h : Nat)
    (tx : List Char) (st : AccState) (k : StatisticIndex) :
    replyGet (counters3 i d h tx st) k = replyGet st k := by
  unfold counters3 replyGet
  by_cases hk : k = i
  · subst hk
    rw [alGet_alModify_self]
    cases alGet st.statistics k <;> rfl
  · rw [alGet_alModify_ne _ hk]

theorem emoji3_replyGet (i : StatisticIndex) (d : Date) (h : Nat)
    (e : List Char) (st : AccState) (k : StatisticIndex) :
    replyGet (emoji3 i d h e st) k = replyGet st k := by
  unfold emoji3 replyGet
  by_cases hk : k = i
  · subst hk
    rw [alGet_alModify_self]
    cases alGet st.statistics k <;> rfl
  · rw [alGet_alModify_ne _ hk]

theorem foldl_emoji3_replyGet (i : StatisticIndex) (d : Date) (h : Nat) :
    ∀ (es : List (List Char)) (st : AccState) (k : StatisticIndex),
      replyGet (es.foldl (fun st e => emoji3 i d h e st) st) k = replyGet st k
  | [], st, k => rfl
  | e :: es, st, k => by
    rw [List.foldl_cons, foldl_emoji3_replyGet i d h es _ k, emoji3_replyGet]

theorem trackCounters_replyGet (em : List Char → List (List Char))
    (i : StatisticIndex) (d : Date) (h : Nat) (tx : List Char)
    (st : AccState) (k : StatisticIndex) :
    replyGet (trackCounters em i d h tx st) k = replyGet st k := by
  unfold trackCounters
  rw [foldl_emoji3_replyGet, counters3_replyGet]

theorem ensureSt_replyGet (i : StatisticIndex) (d : Date) (h : Nat)
    (st : AccState) (k : StatisticIndex) :
    replyGet (ensureSt i d h st) k = replyGet st k := by
  unfold ensureSt replyGet
  by_cases hk : k = i
  · subst hk
    rw [alGet_alEnsure_self]
    cases alGet st.statistics k <;> rfl
  · rw [alGet_alEnsure_ne _ hk]

theorem ensureSt_stat_isSome (i : StatisticIndex) (d : Date) (h : Nat)
    (st : AccState) : (alGet (ensureSt i d h st).statistics i).isSome := by
  unfold ensureSt
  rw [alGet_alEnsure_self]
  rfl

theorem replySt_replyGet_self (i : StatisticIndex) (v : Int) (st : AccState)
    (hp : (alGet st.statistics i).isSome) :
    replyGet (replySt i v st) i = replyGet st i ++ [v] := by
  unfold replySt replyGet
  rw [alGet_alModify_self]
  obtain ⟨g, hg⟩ := Option.isSome_iff_exists.mp hp
  rw [hg]
  rfl

theorem replySt_replyGet_ne (i : StatisticIndex) (v : Int) (st : AccState)
    (k : StatisticIndex) (hk : k ≠ i) :
    replyGet (replySt i v st) k = replyGet st k := by
  unfold replySt replyGet
  rw [alGet_alModify_ne _ hk]

theorem accStep_ok_of_some (em : List Char → List (List Char)) (cid : Nat)
    (m : Message) (lastS : Nat) (t : DT) (st : AccState) :
    accStep em cid m lastS (some t) st =
      .ok (if m.sender_id ≠ lastS
        then trackCounters em ⟨m.sender_id, cid⟩ m.time.dateOf m.time.hour m.text
          (replySt ⟨m.sender_id, cid⟩ (m.time.sub t)
            (ensureSt ⟨m.sender_id, cid⟩ m.time.dateOf m.time.hour st))
        else trackCounters em ⟨m.sender_id, cid⟩ m.time.dateOf m.time.hour m.text
          (ensureSt ⟨m.sender_id, cid⟩ m.time.dateOf m.time.hour st)) := by
  unfold accStep
  by_cases hs : m.sender_id ≠ lastS <;> simp [hs]

theorem accStep_ok_self (em : List Char → List (List Char)) (cid : Nat)
    (m : Message) (lastT : Option DT) (st : AccState) :
    accStep em cid m m.sender_id lastT st =
      .ok (trackCounters em ⟨m.sender_id, cid⟩ m.time.dateOf m.time.hour m.text
        (ensureSt ⟨m.sender_id, cid⟩ m.time.dateOf m.time.hour st)) := by
  unfold accStep
  simp

theorem accStep_replyGet (em : List Char → List (List Char)) (cid : Nat)
    (m : Message) (lastS : Nat) (t : DT) (st st2 : AccState) (k : StatisticIndex)
    (h : accStep em cid m lastS (some t) st = .ok st2) :
    replyGet st2 k = replyGet st k ++
      (if m.sender_id ≠ lastS ∧ k = ⟨m.sender_id, cid⟩
       then [m.time.sub t] else []) := by
  rw [accStep_ok_of_some] at h
  injection h with h2
  subst h2
  by_cases hs : m.sender_id ≠ lastS
  · rw [if_pos hs, trackCounters_replyGet]
    by_cases hk : k = (⟨m.sender_id, cid⟩ : StatisticIndex)
    · subst hk
      rw [replySt_replyGet_self _ _ _ (ensureSt_stat_isSome _ _ _ _),
        ensureSt_replyGet]
      simp [hs]
    · rw [replySt_replyGet_ne _ _ _ _ hk, ensureSt_replyGet]
      simp [hk]
  · rw [if_neg hs, trackCounters_replyGet, ensureSt_replyGet]
    simp [hs]

theorem accStep_replyGet_noswitch (em : List Char → List (List Char))
    (cid : Nat) (m : Message) (lastT : Option DT) (st st2 : AccState)
    (k : StatisticIndex)
    (h : accStep em cid m m.sender_id lastT st = .ok st2) :
    replyGet st2 k = replyGet st k := by
  rw [accStep_ok_self] at h
  injection h with h2
  subst h2
  rw [trackCounters_replyGet, ensureSt_replyGet]

theorem accMsgs_replyGet (em : List Char → List (List Char)) (cid : Nat) :
    ∀ (msgs : List Message) (lastS : Nat) (t : DT) (st st2 : AccState) (s : Nat),
      accMsgs em cid msgs lastS (some t) st = .ok st2 →
      replyGet st2 ⟨s, cid⟩ = replyGet st ⟨s, cid⟩ ++ chainLat s lastS t msgs
  | [], lastS, t, st, st2, s, h => by
    simp only [accMsgs, Except.ok.injEq] at h
    subst h
    simp [chainLat]
  | m :: rest, lastS, t, st, st2, s, h => by
    simp only [accMsgs] at h
    cases hstep : accStep em cid m lastS (some t) st with
    | error e => rw [hstep] at h; exact absurd h (by simp)
    | ok st1 =>
      rw [hstep] at h
      have h1 := accStep_replyGet em cid m lastS t st st1 ⟨s, cid⟩ hstep
      have h2 := accMsgs_replyGet em cid rest m.sender_id m.time st1 st2 s h
      rw [h2, h1, List.append_assoc]
      simp only [chainLat]
      congr 2
      apply if_congr _ rfl rfl
      constructor
      · rintro ⟨hne, hk⟩
        exact ⟨hne, (StatisticIndex.mk.injEq _ _ _ _).mp hk |>.1.symm⟩
      · rintro ⟨hne, hk⟩
        exact ⟨hne, by rw [hk]⟩

theorem chainLat_switch (s : Nat) :
    ∀ (rest : List Message) (p : Message),
      chainLat s p.sender_id p.time rest = switchLatencies s (p :: rest)
  | [], p => by simp [chainLat, switchLatencies]
  | q :: rest, p => by
    have ih := chainLat_switch s rest q
    simp only [chainLat, switchLatencies, List.tail_cons, List.zip_cons_cons,
      List.filterMap_cons] at ih ⊢
    by_cases hc : q.sender_id ≠ p.sender_id ∧ q.sender_id = s
    · rw [if_pos hc, if_pos hc, ih]
      rfl
    · rw [if_neg hc, if_neg hc, ih]
      rfl

theorem accChat_eq (em : List Char → List (List Char)) (cid : Nat)
    (chat : Chat) (st : AccState) (m0 : Message) (rest : List Message)
    (hm : chat.messages = m0 :: rest) :
    accChat em cid chat st = accMsgs em cid (m0 :: rest) m0.sender_id none st := by
  unfold accChat
  rw [hm]

theorem switchLatencies_length (s : Nat) (msgs : List Message) :
    (switchLatencies s msgs).length = switchCount s msgs := by
  unfold switchLatencies switchCount
  induction msgs.zip msgs.tail with
  | nil => rfl
  | cons p l ih =>
    by_cases hc : p.2.sender_id ≠ p.1.sender_id ∧ p.2.sender_id = s
    · have hd : decide (p.2.sender_id ≠ p.1.sender_id ∧ p.2.sender_id = s) = true :=
        decide_eq_true hc
      rw [List.filterMap_cons, List.countP_cons, if_pos hc, hd]
      simp [ih]
    · have hd : decide (p.2.sender_id ≠ p.1.sender_id ∧ p.2.sender_id = s) = false :=
        decide_eq_false hc
      rw [List.filterMap_cons, List.countP_cons, if_neg hc, hd]
      simp [ih]

/-- C3: for every chat the accumulation pass appends, to the total
aggregate of sender s, exactly the timestamp differences at the adjacent
pairs whose later message switches sender to s, in order; the latency list
length is the switch count.  (Day and hour buckets carry no latency list
at all in the model, as in the code.) -/
theorem spec_c3_reply_latencies (em : List Char → List (List Char))
    (cid : Nat) (chat : Chat) (st st2 : AccState) (s : Nat)
    (h : accChat em cid chat st = .ok st2) :
    replyGet st2 ⟨s, cid⟩ =
      replyGet st ⟨s, cid⟩ ++ switchLatencies s chat.messages ∧
    (switchLatencies s chat.messages).length = switchCount s chat.messages := by
  refine ⟨?_, switchLatencies_length s chat.messages⟩
  cases hm : chat.messages with
  | nil =>
    unfold accChat at h
    rw [hm] at h
    exact absurd h (by simp)
  | cons m0 rest =>
    rw [accChat_eq em cid chat st m0 rest hm] at h
    simp only [accMsgs, accStep_ok_self] at h
    have h1 := accMsgs_replyGet em cid rest m0.sender_id m0.time _ st2 s h
    rw [h1, trackCounters_replyGet, ensureSt_replyGet, chainLat_switch s rest m0]

/-- Witness for C3 on the concrete two-sender chat. -/
theorem spec_c3_witness :
    replyGet ((accChat emStar 0 chatW accInit).toOption.getD accInit) ⟨1, 0⟩ =
      replyGet accInit ⟨1, 0⟩ ++ switchLatencies 1 chatW.messages ∧
    (switchLatencies 1 chatW.messages).length = switchCount 1 chatW.messages :=
  spec_c3_reply_latencies emStar 0 chatW accInit _ 1 rfl

/-! ## C10: aggregate keys cover the participant lists -/

theorem alGet_alModify_isSome {κ ν : Type} [DecidableEq κ] (l : AList κ ν)
    (k k2 : κ) (f : ν → ν) :
    (alGet (alModify l k f) k2).isSome = (alGet l k2).isSome := by
  by_cases hk : k2 = k
  · subst hk
    rw [alGet_alModify_self]
    cases alGet l k2 <;> rfl
  · rw [alGet_alModify_ne _ hk]

theorem alGet_alEnsure_isSome_self {κ ν : Type} [DecidableEq κ]
    (l : AList κ ν) (k : κ) (v₀ : ν) :
    (alGet (alEnsure l k v₀) k).isSome := by
  rw [alGet_alEnsure_self]
  rfl

theorem alGet_alEnsure_isSome_mono {κ ν : Type} [DecidableEq κ]
    {l : AList κ ν} {k2 : κ} (k : κ) (v₀ : ν) (h : (alGet l k2).isSome) :
    (alGet (alEnsure l k v₀) k2).isSome := by
  by_cases hk : k2 = k
  · subst hk
    exact alGet_alEnsure_isSome_self l k2 v₀
  · rw [alGet_alEnsure_ne _ hk]
    exact h

theorem counters3_keyPresent (i : StatisticIndex) (d : Date) (hr : Nat)
    (tx : List Char) (st : AccState) (k : StatisticIndex) :
    keyPresent (counters3 i d hr tx st) k ↔ keyPresent st k := by
  unfold counters3 keyPresent
  simp [alGet_alModify_isSome]

theorem emoji3_keyPresent (i : StatisticIndex) (d : Date) (hr : Nat)
    (e : List Char) (st : AccState) (k : StatisticIndex) :
    keyPresent (emoji3 i d hr e st) k ↔ keyPresent st k := by
  unfold emoji3 keyPresent
  simp [alGet_alModify_isSome]

theorem foldl_emoji3_keyPresent (i : StatisticIndex) (d : Date) (hr : Nat) :
    ∀ (es : List (List Char)) (st : AccState) (k : StatisticIndex),
      keyPresent (es.foldl (fun st e => emoji3 i d hr e st) st) k ↔ keyPresent st k
  | [], st, k => Iff.rfl
  | e :: es, st, k => by
    rw [List.foldl_cons]
    exact (foldl_emoji3_keyPresent i d hr es _ k).trans
      (emoji3_keyPresent i d hr e st k)

theorem trackCounters_keyPresent (em : List Char → List (List Char))
    (i : StatisticIndex) (d : Date) (hr : Nat) (tx : List Char)
    (st : AccState) (k : StatisticIndex) :
    keyPresent (trackCounters em i d hr tx st) k ↔ keyPresent st k := by
  unfold trackCounters
  exact (foldl_emoji3_keyPresent i d hr (em tx) _ k).trans
    (counters3_keyPresent i d hr tx st k)

theorem replySt_keyPresent (i : StatisticIndex) (v : Int) (st : AccState)
    (k : StatisticIndex) :
    keyPresent (replySt i v st) k ↔ keyPresent st k := by
  unfold replySt keyPresent
  simp [alGet_alModify_isSome]

theorem ensureSt_keyPresent_self (i : StatisticIndex) (d : Date) (hr : Nat)
    (st : AccState) : keyPresent (ensureSt i d hr st) i := by
  unfold ensureSt keyPresent
  refine ⟨alGet_alEnsure_isSome_self _ _ _, ?_, ?_⟩ <;>
    simp [alGet_alModify_isSome, alGet_alEnsure_isSome_self]

theorem ensureSt_keyPresent_mono (i : StatisticIndex) (d : Date) (hr : Nat)
    (st : AccState) (k : StatisticIndex) (h : keyPresent st k) :
    keyPresent (ensureSt i d hr st) k := by
  unfold ensureSt keyPresent
  obtain ⟨h1, h2, h3⟩ := h
  exact ⟨alGet_alEnsure_isSome_mono i {} h1,
    by rw [alGet_alModify_isSome]; exact alGet_alEnsure_isSome_mono i [] h2,
    by rw [alGet_alModify_isSome]; exact alGet_alEnsure_isSome_mono i [] h3⟩

theorem accStep_keyPresent (em : List Char → List (List Char)) (cid : Nat)
    (m : Message) (lastS : Nat) (lastT : Option DT) (st st2 : AccState)
    (hok : accStep em cid m lastS lastT st = .ok st2) :
    keyPresent st2 ⟨m.sender_id, cid⟩ ∧
    ∀ k, keyPresent st k → keyPresent st2 k := by
  by_cases hs : m.sender_id ≠ lastS
  · cases lastT with
    | none =>
      unfold accStep at hok
      rw [if_pos hs] at hok
      exact absurd hok (by simp)
    | some t =>
      rw [accStep_ok_of_some, if_pos hs] at hok
      injection hok with h2
      subst h2
      constructor
      · rw [trackCounters_keyPresent, replySt_keyPresent]
        exact ensureSt_keyPresent_self _ _ _ _
      · intro k hk
        rw [trackCounters_keyPresent, replySt_keyPresent]
        exact ensureSt_keyPresent_mono _ _ _ _ _ hk
  · have hls : lastS = m.sender_id := (not_ne_iff.mp hs).symm
    subst hls
    rw [accStep_ok_self] at hok
    injection hok with h2
    subst h2
    constructor
    · rw [trackCounters_keyPresent]
      exact ensureSt_keyPresent_self _ _ _ _
    · intro k hk
      rw [trackCounters_keyPresent]
      exact ensureSt_keyPresent_mono _ _ _ _ _ hk

theorem accMsgs_keyPresent (em : List Char → List (List Char)) (cid : Nat) :
    ∀ (msgs : List Message) (lastS : Nat) (lastT : Option DT) (st st2 : AccState),
      accMsgs em cid msgs lastS lastT st = .ok st2 →
      (∀ m ∈ msgs, keyPresent st2 ⟨m.sender_id, cid⟩) ∧
      (∀ k, keyPresent st k → keyPresent st2 k)
  | [], lastS, lastT, st, st2, h => by
    simp only [accMsgs, Except.ok.injEq] at h
    subst h
    exact ⟨by simp, fun k hk => hk⟩
  | m :: rest, lastS, lastT, st, st2, h => by
    simp only [accMsgs] at h
    cases hstep : accStep em cid m lastS lastT st with
    | error e => rw [hstep] at h; exact absurd h (by simp)
    | ok st1 =>
      rw [hstep] at h
      obtain ⟨hself, hmono⟩ := accStep_keyPresent em cid m lastS lastT st st1 hstep
      obtain ⟨hall, hmono2⟩ := accMsgs_keyPresent em cid rest m.sender_id
        (some m.time) st1 st2 h
      refine ⟨?_, fun k hk => hmono2 k (hmono k hk)⟩
      intro m2 hm2
      rcases List.mem_cons.mp hm2 with rfl | hm2
      · exact hmono2 _ hself
      · exact hall m2 hm2

theorem accChat_keyPresent (em : List Char → List (List Char)) (cid : Nat)
    (chat : Chat) (st st2 : AccState)
    (h : accChat em cid chat st = .ok st2) :
    ∀ m ∈ chat.messages, keyPresent st2 ⟨m.sender_id, cid⟩ := by
  cases hm : chat.messages with
  | nil => simp
  | cons m0 rest =>
    rw [accChat_eq em cid chat st m0 rest hm] at h
    exact (accMsgs_keyPresent em cid (m0 :: rest) m0.sender_id none st st2 h).1

/-- C10: every sender id in a parsed chat's participant list is the sender
of at least one of its messages, and after a successful accumulation of
that chat all three aggregate mappings hold an entry for its key, so the
report's lookups cannot miss. -/
theorem spec_c10_participants_covered (reg reg2 : Reg)
    (lines : List (List Char)) (chat : Chat)
    (em : List Char → List (List Char)) (cid : Nat) (st st2 : AccState)
    (hp : parseChat reg lines = .ok (reg2, chat))
    (ha : accChat em cid chat st = .ok st2) :
    ∀ s ∈ chat.sender_ids,
      (∃ m ∈ chat.messages, m.sender_id = s) ∧ keyPresent st2 ⟨s, cid⟩ := by
  intro s hs
  obtain ⟨m, hm, hms⟩ :=
    parseLinesAux_conv lines reg ⟨[], []⟩ reg2 chat hp (by simp) s hs
  exact ⟨⟨m, hm, hms⟩, hms ▸ accChat_keyPresent em cid chat st st2 ha m hm⟩

/-- Witness for C10 on the concrete two-sender chat. -/
theorem spec_c10_witness :
    (∃ m ∈ chatW.messages, m.sender_id = 1) ∧
    keyPresent ((accChat emStar 0 chatW accInit).toOption.getD accInit) ⟨1, 0⟩ :=
  spec_c10_participants_covered [] ["Alice".toList, "Bob".toList]
    ["1/2/23, 09:00 - Alice: Hello *".toList, "1/2/23, 09:05 - Bob: Hi".toList]
    chatW emStar 0 accInit _ rfl rfl 1 (by decide)

/-! ## C4 and C8: the accumulation invariant -/

theorem sumVals_alModify_add {κ ν : Type} [DecidableEq κ] {l : AList κ ν}
    {k : κ} {v : ν} (δ : Nat) (f : ν → Nat) (u : ν → ν)
    (hget : alGet l k = some v) (hδ : f (u v) = f v + δ) :
    sumVals f (alModify l k u) = sumVals f l + δ := by
  have := sumVals_alModify f u hget
  omega

theorem mem_alModify {κ ν : Type} [DecidableEq κ] {l : AList κ ν} {k : κ}
    {f : ν → ν} {p : κ × ν} (hp : p ∈ alModify l k f) :
    p ∈ l ∨ ∃ q, q ∈ l ∧ p = (q.1, f q.2) := by
  induction l with
  | nil => simp [alModify] at hp
  | cons q rest ih =>
    by_cases hq : q.1 = k
    · rw [alModify, if_pos hq] at hp
      rcases List.mem_cons.mp hp with rfl | hp
      · exact Or.inr ⟨q, List.mem_cons_self q rest, rfl⟩
      · exact Or.inl (List.mem_cons_of_mem _ hp)
    · rw [alModify, if_neg hq] at hp
      rcases List.mem_cons.mp hp with rfl | hp
      · exact Or.inl (List.mem_cons_self _ _)
      · rcases ih hp with h | ⟨q2, hq2, he⟩
        · exact Or.inl (List.mem_cons_of_mem _ h)
        · exact Or.inr ⟨q2, List.mem_cons_of_mem _ hq2, he⟩

theorem sumVals_bumpEmojiStat (tbl : AList (List Char) Nat) (e : List Char) :
    sumVals id (bumpEmojiStat tbl e) = sumVals id tbl + 1 := by
  unfold bumpEmojiStat
  split
  · next h =>
    obtain ⟨c, hc⟩ := Option.isSome_iff_exists.mp h
    exact sumVals_alModify_add 1 id (· + 1) hc rfl
  · rw [sumVals_append]
    simp [sumVals]

theorem bumpEmojiStat_pos (tbl : AList (List Char) Nat) (e : List Char)
    (h : ∀ p ∈ tbl, 1 ≤ p.2) : ∀ p ∈ bumpEmojiStat tbl e, 1 ≤ p.2 := by
  unfold bumpEmojiStat
  split
  · intro p hp
    rcases mem_alModify hp with hp | ⟨q, hq, rfl⟩
    · exact h p hp
    · exact Nat.le_add_left 1 q.2
  · intro p hp
    rcases List.mem_append.mp hp with hp | hp
    · exact h p hp
    · simp at hp
      simp [hp]

theorem statSums_alEnsure (g : GeneralStatistic) (db : AList Date Statistic)
    (hb : AList Nat Statistic) (d : Date) (hr : Nat)
    (h : statSums g db hb) :
    statSums g (alEnsure db d {}) (alEnsure hb hr {}) := by
  obtain ⟨h1, h2, h3, h4, h5, h6, h7, h8⟩ := h
  exact ⟨by rw [sumVals_alEnsure Statistic.message_count {} db d rfl]; exact h1,
    by rw [sumVals_alEnsure Statistic.message_count {} hb hr rfl]; exact h2,
    by rw [sumVals_alEnsure Statistic.message_length {} db d rfl]; exact h3,
    by rw [sumVals_alEnsure Statistic.message_length {} hb hr rfl]; exact h4,
    by rw [sumVals_alEnsure Statistic.word_count {} db d rfl]; exact h5,
    by rw [sumVals_alEnsure Statistic.word_count {} hb hr rfl]; exact h6,
    by rw [sumVals_alEnsure Statistic.emoji_count {} db d rfl]; exact h7,
    by rw [sumVals_alEnsure Statistic.emoji_count {} hb hr rfl]; exact h8⟩

theorem statSums_empty (d : Date) (hr : Nat) :
    statSums {} [(d, ({} : Statistic))] [(hr, ({} : Statistic))] := by
  refine ⟨?_, ?_, ?_, ?_, ?_, ?_, ?_, ?_⟩ <;> rfl

theorem emojiTbl_empty : emojiTbl {} := by
  exact ⟨rfl, by simp⟩

theorem statSums_bump (g : GeneralStatistic) (db : AList Date Statistic)
    (hb : AList Nat Statistic) (d : Date) (hr : Nat) (dv hv : Statistic)
    (tx : List Char)
    (hd : alGet db d = some dv) (hh : alGet hb hr = some hv)
    (h : statSums g db hb) :
    statSums { g with toStatistic := bumpStat tx g.toStatistic }
      (alModify db d (bumpStat tx)) (alModify hb hr (bumpStat tx)) := by
  obtain ⟨h1, h2, h3, h4, h5, h6, h7, h8⟩ := h
  refine ⟨?_, ?_, ?_, ?_, ?_, ?_, ?_, ?_⟩
  · rw [sumVals_alModify_add 1 Statistic.message_count (bumpStat tx) hd rfl]
    simp [bumpStat, h1]
  · rw [sumVals_alModify_add 1 Statistic.message_count (bumpStat tx) hh rfl]
    simp [bumpStat, h2]
  · rw [sumVals_alModify_add tx.length Statistic.message_length (bumpStat tx) hd rfl]
    simp [bumpStat, h3]
  · rw [sumVals_alModify_add tx.length Statistic.message_length (bumpStat tx) hh rfl]
    simp [bumpStat, h4]
  · rw [sumVals_alModify_add (wordCount tx) Statistic.word_count (bumpStat tx) hd rfl]
    simp [bumpStat, h5]
  · rw [sumVals_alModify_add (wordCount tx) Statistic.word_count (bumpStat tx) hh rfl]
    simp [bumpStat, h6]
  · rw [sumVals_alModify_add 0 Statistic.emoji_count (bumpStat tx) hd rfl]
    simp [bumpStat, h7]
  · rw [sumVals_alModify_add 0 Statistic.emoji_count (bumpStat tx) hh rfl]
    simp [bumpStat, h8]

theorem statSums_bumpEmoji (g : GeneralStatistic) (db : AList Date Statistic)
    (hb : AList Nat Statistic) (d : Date) (hr : Nat) (dv hv : Statistic)
    (e : List Char)
    (hd : alGet db d = some dv) (hh : alGet hb hr = some hv)
    (h : statSums g db hb) :
    statSums { g with toStatistic := bumpEmojiCount g.toStatistic,
                      emoji_stat := bumpEmojiStat g.emoji_stat e }
      (alModify db d bumpEmojiCount) (alModify hb hr bumpEmojiCount) := by
  obtain ⟨h1, h2, h3, h4, h5, h6, h7, h8⟩ := h
  refine ⟨?_, ?_, ?_, ?_, ?_, ?_, ?_, ?_⟩
  · rw [sumVals_alModify_add 0 Statistic.message_count bumpEmojiCount hd rfl]
    simp [bumpEmojiCount, h1]
  · rw [sumVals_alModify_add 0 Statistic.message_count bumpEmojiCount hh rfl]
    simp [bumpEmojiCount, h2]
  · rw [sumVals_alModify_add 0 Statistic.message_length bumpEmojiCount hd rfl]
    simp [bumpEmojiCount, h3]
  · rw [sumVals_alModify_add 0 Statistic.message_length bumpEmojiCount hh rfl]
    simp [bumpEmojiCount, h4]
  · rw [sumVals_alModify_add 0 Statistic.word_count bumpEmojiCount hd rfl]
    simp [bumpEmojiCount, h5]
  · rw [sumVals_alModify_add 0 Statistic.word_count bumpEmojiCount hh rfl]
    simp [bumpEmojiCount, h6]
  · rw [sumVals_alModify_add 1 Statistic.emoji_count bumpEmojiCount hd rfl]
    simp [bumpEmojiCount, h7]
  · rw [sumVals_alModify_add 1 Statistic.emoji_count bumpEmojiCount hh rfl]
    simp [bumpEmojiCount, h8]

theorem emojiTbl_bumpEmoji (g : GeneralStatistic) (e : List Char)
    (h : emojiTbl g) :
    emojiTbl { g with toStatistic := bumpEmojiCount g.toStatistic,
                      emoji_stat := bumpEmojiStat g.emoji_stat e } := by
  obtain ⟨hsum, hpos⟩ := h
  constructor
  · show sumVals id (bumpEmojiStat g.emoji_stat e) = g.emoji_count + 1
    rw [sumVals_bumpEmojiStat, hsum]
  · exact bumpEmojiStat_pos g.emoji_stat e hpos

theorem invAt_ne (st st2 : AccState) (k : StatisticIndex)
    (h1 : alGet st2.statistics k = alGet st.statistics k)
    (h2 : alGet st2.statistics_by_date k = alGet st.statistics_by_date k)
    (h3 : alGet st2.statistics_by_hour k = alGet st.statistics_by_hour k)
    (h : InvAt st k) : InvAt st2 k := by
  unfold InvAt at h ⊢
  rw [h1, h2, h3]
  exact h

theorem ensureSt_inv_ready (i : StatisticIndex) (d : Date) (hr : Nat)
    (st : AccState) (hI : Inv st) :
    Inv (ensureSt i d hr st) ∧ Ready (ensureSt i d hr st) i d hr := by
  have hstat : alGet (ensureSt i d hr st).statistics i =
      some ((alGet st.statistics i).getD {}) := alGet_alEnsure_self _ _ _
  have hdate : alGet (ensureSt i d hr st).statistics_by_date i =
      some (alEnsure ((alGet st.statistics_by_date i).getD []) d {}) := by
    show alGet (alModify (alEnsure st.statistics_by_date i []) i _) i = _
    rw [alGet_alModify_self, alGet_alEnsure_self]
    rfl
  have hhour : alGet (ensureSt i d hr st).statistics_by_hour i =
      some (alEnsure ((alGet st.statistics_by_hour i).getD []) hr {}) := by
    show alGet (alModify (alEnsure st.statistics_by_hour i []) i _) i = _
    rw [alGet_alModify_self, alGet_alEnsure_self]
    rfl
  have hAtI : InvAt (ensureSt i d hr st) i ∧ Ready (ensureSt i d hr st) i d hr := by
    rcases hI i with ⟨g, db, hb, h1, h2, h3, hsums, htbl⟩ | ⟨h1, h2, h3⟩
    · rw [h1] at hstat
      rw [h2] at hdate
      rw [h3] at hhour
      simp only [Option.getD_some] at hstat hdate hhour
      constructor
      · exact Or.inl ⟨g, _, _, hstat, hdate, hhour,
          statSums_alEnsure g db hb d hr hsums, htbl⟩
      · exact ⟨g, _, _, _, _, hstat, hdate, hhour,
          alGet_alEnsure_self db d {}, alGet_alEnsure_self hb hr {},
          statSums_alEnsure g db hb d hr hsums, htbl⟩
    · rw [h1] at hstat
      rw [h2] at hdate
      rw [h3] at hhour
      simp only [Option.getD_none] at hstat hdate hhour
      constructor
      · exact Or.inl ⟨{}, [(d, {})], [(hr, {})], hstat, hdate, hhour,
          statSums_empty d hr, emojiTbl_empty⟩
      · exact ⟨{}, [(d, {})], [(hr, {})], {}, {}, hstat, hdate, hhour,
          by simp [alGet], by simp [alGet], statSums_empty d hr, emojiTbl_empty⟩
  refine ⟨?_, hAtI.2⟩
  intro k
  by_cases hk : k = i
  · subst hk
    exact hAtI.1
  · refine invAt_ne st _ k ?_ ?_ ?_ (hI k)
    · exact alGet_alEnsure_ne _ hk
    · show alGet (alModify (alEnsure st.statistics_by_date i []) i _) k = _
      rw [alGet_alModify_ne _ hk, alGet_alEnsure_ne _ hk]
    · show alGet (alModify (alEnsure st.statistics_by_hour i []) i _) k = _
      rw [alGet_alModify_ne _ hk, alGet_alEnsure_ne _ hk]

theorem replySt_inv_ready (i : StatisticIndex) (d : Date) (hr : Nat)
    (v : Int) (st : AccState) (hI : Inv st) (hR : Ready st i d hr) :
    Inv (replySt i v st) ∧ Ready (replySt i v st) i d hr := by
  obtain ⟨g, db, hb, dv, hv, h1, h2, h3, h4, h5, hsums, htbl⟩ := hR
  have hstat : alGet (replySt i v st).statistics i =
      some { g with reply_times := g.reply_times ++ [v] } := by
    show alGet (alModify st.statistics i _) i = _
    rw [alGet_alModify_self, h1]
    rfl
  constructor
  · intro k
    by_cases hk : k = i
    · subst hk
      exact Or.inl ⟨_, db, hb, hstat, h2, h3, hsums, htbl⟩
    · refine invAt_ne st _ k ?_ rfl rfl (hI k)
      exact alGet_alModify_ne _ hk
  · exact ⟨_, db, hb, dv, hv, hstat, h2, h3, h4, h5, hsums, htbl⟩

theorem counters3_inv_ready (i : StatisticIndex) (d : Date) (hr : Nat)
    (tx : List Char) (st : AccState) (hI : Inv st) (hR : Ready st i d hr) :
    Inv (counters3 i d hr tx st) ∧ Ready (counters3 i d hr tx st) i d hr := by
  obtain ⟨g, db, hb, dv, hv, h1, h2, h3, h4, h5, hsums, htbl⟩ := hR
  have hstat : alGet (counters3 i d hr tx st).statistics i =
      some { g with toStatistic := bumpStat tx g.toStatistic } := by
    show alGet (alModify st.statistics i _) i = _
    rw [alGet_alModify_self, h1]
    rfl
  have hdate : alGet (counters3 i d hr tx st).statistics_by_date i =
      some (alModify db d (bumpStat tx)) := by
    show alGet (alModify st.statistics_by_date i _) i = _
    rw [alGet_alModify_self, h2]
    rfl
  have hhour : alGet (counters3 i d hr tx st).statistics_by_hour i =
      some (alModify hb hr (bumpStat tx)) := by
    show alGet (alModify st.statistics_by_hour i _) i = _
    rw [alGet_alModify_self, h3]
    rfl
  have hsums2 := statSums_bump g db hb d hr dv hv tx h4 h5 hsums
  constructor
  · intro k
    by_cases hk : k = i
    · subst hk
      exact Or.inl ⟨_, _, _, hstat, hdate, hhour, hsums2, htbl⟩
    · refine invAt_ne st _ k ?_ ?_ ?_ (hI k)
      · exact alGet_alModify_ne _ hk
      · exact alGet_alModify_ne _ hk
      · exact alGet_alModify_ne _ hk
  · exact ⟨_, _, _, bumpStat tx dv, bumpStat tx hv, hstat, hdate, hhour,
      by rw [alGet_alModify_self, h4]; rfl,
      by rw [alGet_alModify_self, h5]; rfl, hsums2, htbl⟩

theorem emoji3_inv_ready (i : StatisticIndex) (d : Date) (hr : Nat)
    (e : List Char) (st : AccState) (hI : Inv st) (hR : Ready st i d hr) :
    Inv (emoji3 i d hr e st) ∧ Ready (emoji3 i d hr e st) i d hr := by
  obtain ⟨g, db, hb, dv, hv, h1, h2, h3, h4, h5, hsums, htbl⟩ := hR
  have hstat : alGet (emoji3 i d hr e st).statistics i =
      some { g with toStatistic := bumpEmojiCount g.toStatistic,
                    emoji_stat := bumpEmojiStat g.emoji_stat e } := by
    show alGet (alModify st.statistics i _) i = _
    rw [alGet_alModify_self, h1]
    rfl
  have hdate : alGet (emoji3 i d hr e st).statistics_by_date i =
      some (alModify db d bumpEmojiCount) := by
    show alGet (alModify st.statistics_by_date i _) i = _
    rw [alGet_alModify_self, h2]
    rfl
  have hhour : alGet (emoji3 i d hr e st).statistics_by_hour i =
      some (alModify hb hr bumpEmojiCount) := by
    show alGet (alModify st.statistics_by_hour i _) i = _
    rw [alGet_alModify_self, h3]
    rfl
  have hsums2 := statSums_bumpEmoji g db hb d hr dv hv e h4 h5 hsums
  have htbl2 := emojiTbl_bumpEmoji g e htbl
  constructor
  · intro k
    by_cases hk : k = i
    · subst hk
      exact Or.inl ⟨_, _, _, hstat, hdate, hhour, hsums2, htbl2⟩
    · refine invAt_ne st _ k ?_ ?_ ?_ (hI k)
      · exact alGet_alModify_ne _ hk
      · exact alGet_alModify_ne _ hk
      · exact alGet_alModify_ne _ hk
  · exact ⟨_, _, _, bumpEmojiCount dv, bumpEmojiCount hv, hstat, hdate, hhour,
      by rw [alGet_alModify_self, h4]; rfl,
      by rw [alGet_alModify_self, h5]; rfl, hsums2, htbl2⟩

theorem foldl_emoji3_inv_ready (i : StatisticIndex) (d : Date) (hr : Nat) :
    ∀ (es : List (List Char)) (st : AccState), Inv st → Ready st i d hr →
      Inv (es.foldl (fun st e => emoji3 i d hr e st) st) ∧
      Ready (es.foldl (fun st e => emoji3 i d hr e st) st) i d hr
  | [], st, hI, hR => ⟨hI, hR⟩
  | e :: es, st, hI, hR => by
    rw [List.foldl_cons]
    obtain ⟨hI2, hR2⟩ := emoji3_inv_ready i d hr e st hI hR
    exact foldl_emoji3_inv_ready i d hr es _ hI2 hR2

theorem trackCounters_inv (em : List Char → List (List Char))
    (i : StatisticIndex) (d : Date) (hr : Nat) (tx : List Char)
    (st : AccState) (hI : Inv st) (hR : Ready st i d hr) :
    Inv (trackCounters em i d hr tx st) := by
  unfold trackCounters
  obtain ⟨hI2, hR2⟩ := counters3_inv_ready i d hr tx st hI hR
  exact (foldl_emoji3_inv_ready i d hr (em tx) _ hI2 hR2).1

theorem accStep_inv (em : List Char → List (List Char)) (cid : Nat)
    (m : Message) (lastS : Nat) (lastT : Option DT) (st st2 : AccState)
    (hok : accStep em cid m lastS lastT st = .ok st2) (hI : Inv st) :
    Inv st2 := by
  by_cases hs : m.sender_id ≠ lastS
  · cases lastT with
    | none =>
      unfold accStep at hok
      rw [if_pos hs] at hok
      exact absurd hok (by simp)
    | some t =>
      rw [accStep_ok_of_some, if_pos hs] at hok
      injection hok with h2
      subst h2
      obtain ⟨hI1, hR1⟩ := ensureSt_inv_ready _ _ _ st hI
      obtain ⟨hI2, hR2⟩ := replySt_inv_ready _ _ _ _ _ hI1 hR1
      exact trackCounters_inv em _ _ _ _ _ hI2 hR2
  · have hls : lastS = m.sender_id := (not_ne_iff.mp hs).symm
    subst hls
    rw [accStep_ok_self] at hok
    injection hok with h2
    subst h2
    obtain ⟨hI1, hR1⟩ := ensureSt_inv_ready _ _ _ st hI
    exact trackCounters_inv em _ _ _ _ _ hI1 hR1

theorem accMsgs_inv (em : List Char → List (List Char)) (cid : Nat) :
    ∀ (msgs : List Message) (lastS : Nat) (lastT : Option DT)
      (st st2 : AccState),
      accMsgs em cid msgs lastS lastT st = .ok st2 → Inv st → Inv st2
  | [], lastS, lastT, st, st2, h, hI => by
    simp only [accMsgs, Except.ok.injEq] at h
    subst h
    exact hI
  | m :: rest, lastS, lastT, st, st2, h, hI => by
    simp only [accMsgs] at h
    cases hstep : accStep em cid m lastS lastT st with
    | error e => rw [hstep] at h; exact absurd h (by simp)
    | ok st1 =>
      rw [hstep] at h
      exact accMsgs_inv em cid rest m.sender_id (some m.time) st1 st2 h
        (accStep_inv em cid m lastS lastT st st1 hstep hI)

theorem accChat_inv (em : List Char → List (List Char)) (cid : Nat)
    (chat : Chat) (st st2 : AccState)
    (h : accChat em cid chat st = .ok st2) (hI : Inv st) : Inv st2 := by
  cases hm : chat.messages with
  | nil =>
    unfold accChat at h
    rw [hm] at h
    exact absurd h (by simp)
  | cons m0 rest =>
    rw [accChat_eq em cid chat st m0 rest hm] at h
    exact accMsgs_inv em cid (m0 :: rest) m0.sender_id none st st2 h hI

theorem accChatsAux_inv (em : List Char → List (List Char)) :
    ∀ (cid : Nat) (chats : List Chat) (st st2 : AccState),
      accChatsAux em cid chats st = .ok st2 → Inv st → Inv st2
  | cid, [], st, st2, h, hI => by
    simp only [accChatsAux, Except.ok.injEq] at h
    subst h
    exact hI
  | cid, c :: rest, st, st2, h, hI => by
    simp only [accChatsAux] at h
    cases hc : accChat em cid c st with
    | error e => rw [hc] at h; exact absurd h (by simp)
    | ok st1 =>
      rw [hc] at h
      exact accChatsAux_inv em (cid + 1) rest st1 st2 h
        (accChat_inv em cid c st st1 hc hI)

theorem accChats_inv (em : List Char → List (List Char)) (chats : List Chat)
    (st : AccState) (h : accChats em chats = .ok st) : Inv st :=
  accChatsAux_inv em 0 chats accInit st h
    (fun _ => Or.inr ⟨rfl, rfl, rfl⟩)

/-- C4: after a successful accumulation, every key present in the total
aggregate has day and hour bucket maps, and its total message count,
character length, word count and emoji count each equal the sum over its
day buckets and the sum over its hour buckets. -/
theorem spec_c4_three_way_sums (em : List Char → List (List Char))
    (chats : List Chat) (st : AccState) (k : StatisticIndex)
    (g : GeneralStatistic)
    (h : accChats em chats = .ok st)
    (hg : alGet st.statistics k = some g) :
    ∃ db hb, alGet st.statistics_by_date k = some db ∧
      alGet st.statistics_by_hour k = some hb ∧ statSums g db hb := by
  rcases accChats_inv em chats st h k with
    ⟨g2, db, hb, h1, h2, h3, hsums, _⟩ | ⟨h1, _, _⟩
  · rw [hg] at h1
    injection h1 with he
    subst he
    exact ⟨db, hb, h2, h3, hsums⟩
  · rw [hg] at h1
    exact absurd h1 (by simp)

/-- Witness for C4 on the concrete two-sender chat. -/
theorem spec_c4_witness :
    ∃ db hb,
      alGet ((accChats emStar [chatW]).toOption.getD accInit).statistics_by_date
        ⟨0, 0⟩ = some db ∧
      alGet ((accChats emStar [chatW]).toOption.getD accInit).statistics_by_hour
        ⟨0, 0⟩ = some hb ∧
      statSums ((alGet ((accChats emStar [chatW]).toOption.getD accInit).statistics
        ⟨0, 0⟩).getD {}) db hb :=
  spec_c4_three_way_sums emStar [chatW] _ ⟨0, 0⟩ _ rfl rfl

/-! ## C8: the emoji report section -/

theorem emojiTbl_zero (g : GeneralStatistic) (ht : emojiTbl g)
    (h0 : g.emoji_count = 0) : g.emoji_stat = [] := by
  obtain ⟨hsum, hpos⟩ := ht
  cases htb : g.emoji_stat with
  | nil => rfl
  | cons p rest =>
    rw [htb] at hsum hpos
    have hp := hpos p (List.mem_cons_self p rest)
    rw [h0] at hsum
    simp [sumVals] at hsum
    omega

theorem emojiLe_trans : ∀ (a b c : List Char × Nat),
    (fun a b : List Char × Nat => decide (b.2 ≤ a.2)) a b →
    (fun a b : List Char × Nat => decide (b.2 ≤ a.2)) b c →
    (fun a b : List Char × Nat => decide (b.2 ≤ a.2)) a c := by
  intro a b c hab hbc
  simp at hab hbc ⊢
  omega

theorem emojiLe_total : ∀ (a b : List Char × Nat),
    (fun a b : List Char × Nat => decide (b.2 ≤ a.2)) a b ||
    (fun a b : List Char × Nat => decide (b.2 ≤ a.2)) b a := by
  intro a b
  by_cases hab : b.2 ≤ a.2
  · simp [hab]
  · simp [hab]
    omega

theorem reportSender_top_emojis (stat : GeneralStatistic)
    (db : AList Date Statistic) (r : SenderReport)
    (h : reportSender stat db = .ok r) :
    r.top_emojis = (emojiSection stat).map
      (fun p => (p.1, p.2, 100 * (p.2 : Rat) / (stat.emoji_count : Rat))) := by
  simp only [reportSender] at h
  split at h
  · exact absurd h (by simp)
  · exact absurd h (by simp)
  · split at h
    · exact absurd h (by simp)
    · split at h
      · exact absurd h (by simp)
      · split at h
        · exact absurd h (by simp)
        · split at h
          · exact absurd h (by simp)
          · injection h with h2
            subst h2
            rfl

/-- C8: for every sender aggregate produced by accumulation, the emoji
section of the report is the stable descending-by-count sort of the
frequency table truncated to ten entries: at most 10 entries, sorted
descending, a permutation of the table, ties keeping insertion order; a
sender with zero emoji count has an empty table, hence an empty section
and a zero emoji-per-message average, and the printed percentages divide
each count by the sender's total emoji count. -/
theorem spec_c8_emoji_report (em : List Char → List (List Char))
    (chats : List Chat) (st : AccState) (k : StatisticIndex)
    (g : GeneralStatistic)
    (h : accChats em chats = .ok st)
    (hg : alGet st.statistics k = some g) :
    (emojiSection g).length ≤ 10 ∧
    List.Pairwise (fun a b : List Char × Nat => b.2 ≤ a.2) (emojiSorted g) ∧
    List.Perm (emojiSorted g) g.emoji_stat ∧
    (∀ a b : List Char × Nat,
      List.Sublist [a, b] g.emoji_stat → b.2 ≤ a.2 →
        List.Sublist [a, b] (emojiSorted g)) ∧
    (g.emoji_count = 0 → emojiSection g = [] ∧
      (g.emoji_count : Rat) / (g.message_count : Rat) = 0) ∧
    (∀ (db : AList Date Statistic) (r : SenderReport),
      reportSender g db = .ok r →
      r.top_emojis = (emojiSection g).map
        (fun p => (p.1, p.2, 100 * (p.2 : Rat) / (g.emoji_count : Rat)))) := by
  refine ⟨?_, ?_, ?_, ?_, ?_, fun db r hr => reportSender_top_emojis g db r hr⟩
  · unfold emojiSection
    simp [List.length_take]
  · have hs := List.sorted_mergeSort emojiLe_trans emojiLe_total g.emoji_stat
    exact hs.imp (fun hab => of_decide_eq_true hab)
  · exact List.mergeSort_perm g.emoji_stat _
  · intro a b hsub hle
    exact List.pair_sublist_mergeSort emojiLe_trans emojiLe_total
      (decide_eq_true hle) hsub
  · intro h0
    have htbl : emojiTbl g := by
      rcases accChats_inv em chats st h k with
        ⟨g2, db, hb, h1, _, _, _, htbl⟩ | ⟨h1, _, _⟩
      · rw [hg] at h1
        injection h1 with he
        subst he
        exact htbl
      · rw [hg] at h1
        exact absurd h1 (by simp)
    have hnil : g.emoji_stat = [] := emojiTbl_zero g htbl h0
    constructor
    · unfold emojiSection emojiSorted
      rw [hnil]
      simp [List.mergeSort]
    · rw [h0]
      simp

/-- Witness for C8: the second sender of the concrete chat has zero emoji
usage, an empty section and a zero average. -/
theorem spec_c8_witness :
    emojiSection ((alGet ((accChats emStar [chatW]).toOption.getD accInit).statistics
      ⟨1, 0⟩).getD {}) = [] ∧
    ((((alGet ((accChats emStar [chatW]).toOption.getD accInit).statistics
        ⟨1, 0⟩).getD {}).emoji_count : Rat) /
      (((alGet ((accChats emStar [chatW]).toOption.getD accInit).statistics
        ⟨1, 0⟩).getD {}).message_count : Rat)) = 0 :=
  (spec_c8_emoji_report emStar [chatW] _ ⟨1, 0⟩ _ rfl rfl).2.2.2.2.1 rfl

end WA
